/-
Verification of the quantitative core of the smart-wealth-advisor repository.

The Python sources `algo.py`, `models.py` and `tax_optimizer.py` are shallowly
embedded below.  Floating-point numbers are modelled by exact rationals (ℚ);
the transcendental helpers that NumPy supplies (`np.exp`, `np.sqrt(12)`, the
standard-normal sampler) are abstracted as explicit parameters, so every
definition stays computable.  `np.linalg.inv` raises `LinAlgError` on a
singular matrix; this is modelled by an `Option` result, `none` standing for
the raised exception.  `scipy.optimize.minimize` is an external solver and is
modelled as a function parameter returning `some x` on success (`result.success`)
and `none` on failure.
-/
import Mathlib

/-! ## Generic helpers -/

/-- Python `int(q)`: truncation toward zero. -/
def int_trunc (q : ℚ) : ℤ := if q < 0 then -⌊-q⌋ else ⌊q⌋

/-- Dictionary lookup `d.get(a, default)` over an association list. -/
def dict_get (l : List (String × ℚ)) (a : String) (d : ℚ) : ℚ :=
  match l.find? (fun p => p.1 == a) with
  | some p => p.2
  | none => d

/-- Python `assets.index(asset)`: position of the first occurrence. -/
def index_of_str (a : String) : List String → ℕ
  | [] => 0
  | b :: t => if b = a then 0 else index_of_str a t + 1

/-! ## tax_optimizer.py -/

/-- Constant `TAX_BRACKETS_2567`: upper bound of each bracket (`none` = `float('inf')`)
and its marginal rate. -/
def TAX_BRACKETS_2567 : List (Option ℚ × ℚ) :=
  [(some 150000, 0), (some 300000, 1/20), (some 500000, 1/10),
   (some 750000, 3/20), (some 1000000, 1/5), (some 2000000, 1/4),
   (some 5000000, 3/10), (none, 7/20)]

def PERSONAL_DEDUCTION : ℚ := 60000
def SPOUSE_DEDUCTION : ℚ := 60000
def CHILD_DEDUCTION : ℚ := 30000
def PARENT_DEDUCTION : ℚ := 30000
def INSURANCE_LIFE_MAX : ℚ := 100000
def INSURANCE_HEALTH_MAX : ℚ := 25000
def SOCIAL_SECURITY_MAX : ℚ := 9000
def PROVIDENT_FUND_MAX_PERCENT : ℚ := 15/100
def PROVIDENT_FUND_MAX : ℚ := 500000
def SSF_MAX_PERCENT : ℚ := 30/100
def SSF_MAX_AMOUNT : ℚ := 200000
def RMF_MAX_PERCENT : ℚ := 30/100
def RMF_MAX_AMOUNT : ℚ := 500000

/-- Dataclass `TaxDeductions` (children/parents are integer counts). -/
structure TaxDeductions where
  personal : ℚ
  spouse : ℚ
  children : ℕ
  parents : ℕ
  life_insurance : ℚ
  health_insurance : ℚ
  social_security : ℚ
  provident_fund : ℚ
  ssf_current : ℚ
  rmf_current : ℚ
  other_deductions : ℚ

/-- Dataclass `TaxResult`. -/
structure TaxResult where
  gross_income : ℚ
  expense_deduction : ℚ
  total_deductions : ℚ
  net_income : ℚ
  tax_before_deduction : ℚ
  tax_after_deduction : ℚ
  effective_rate : ℚ
  tax_bracket : String

/-- Function `calculate_expense_deduction`: every income type deducts
`min(income * 0.50, 100_000)`. -/
def calculate_expense_deduction (income : ℚ) (income_type : String) : ℚ :=
  if income_type = "salary" then min (income * (1/2)) 100000
  else if income_type = "freelance" then min (income * (1/2)) 100000
  else min (income * (1/2)) 100000

/-- Function `calculate_total_deductions`. -/
def calculate_total_deductions (d : TaxDeductions) (income : ℚ) : ℚ :=
  d.personal
  + min d.spouse SPOUSE_DEDUCTION
  + d.children * CHILD_DEDUCTION
  + min (d.parents : ℚ) 4 * PARENT_DEDUCTION
  + min d.life_insurance INSURANCE_LIFE_MAX
  + min d.health_insurance INSURANCE_HEALTH_MAX
  + min d.social_security SOCIAL_SECURITY_MAX
  + min d.provident_fund (min (income * PROVIDENT_FUND_MAX_PERCENT) PROVIDENT_FUND_MAX)
  + min d.ssf_current (min (income * SSF_MAX_PERCENT) SSF_MAX_AMOUNT)
  + min d.rmf_current (min (income * RMF_MAX_PERCENT) RMF_MAX_AMOUNT)
  + d.other_deductions

/-- Python `f"{rate*100:.0f}%"` for the rates of the bracket table
(all of which make `rate*100` an integer). -/
def rate_label (rate : ℚ) : String := toString (rate * 100).num ++ "%"

/-- The bracket loop of `calculate_tax`: carries
`(tax, remaining, prev_bracket, current_rate)` and breaks as soon as
`remaining <= 0`.  For the `float('inf')` bracket, `min(remaining, inf - prev)`
is `remaining`. -/
def tax_loop : List (Option ℚ × ℚ) → ℚ → ℚ → ℚ → String → ℚ × String
  | [], tax, _, _, current_rate => (tax, current_rate)
  | (bracket, rate) :: rest, tax, remaining, prev, current_rate =>
    let taxable := match bracket with
      | some b => min remaining (b - prev)
      | none => remaining
    let tax' := if taxable > 0 then tax + taxable * rate else tax
    let rate' := if taxable > 0 then rate_label rate else current_rate
    let remaining' := remaining - taxable
    let prev' := bracket.getD prev
    if remaining' ≤ 0 then (tax', rate')
    else tax_loop rest tax' remaining' prev' rate'

/-- Function `calculate_tax(net_income)` returning `(tax, top bracket label)`. -/
def calculate_tax (net_income : ℚ) : ℚ × String :=
  if net_income ≤ 0 then (0, "0%")
  else tax_loop TAX_BRACKETS_2567 0 net_income 0 "0%"

/-- The lookup loop of `get_marginal_rate`; `net <= float('inf')` always holds,
and the trailing `return 0.35` of the Python loop is the `[]` case. -/
def marginal_loop : List (Option ℚ × ℚ) → ℚ → ℚ
  | [], _ => 7/20
  | (some b, rate) :: rest, net => if net ≤ b then rate else marginal_loop rest net
  | (none, rate) :: _, _ => rate

/-- Function `get_marginal_rate(net_income)`. -/
def get_marginal_rate (net_income : ℚ) : ℚ :=
  marginal_loop TAX_BRACKETS_2567 net_income

/-- Function `calculate_full_tax(gross_income, deductions, income_type)`. -/
def calculate_full_tax (gross_income : ℚ) (d : TaxDeductions)
    (income_type : String) : TaxResult :=
  let expense := calculate_expense_deduction gross_income income_type
  let total_deductions := calculate_total_deductions d gross_income
  let net_income := max 0 (gross_income - expense - total_deductions)
  let tc := calculate_tax net_income
  let effective_rate := if gross_income > 0 then tc.1 / gross_income * 100 else 0
  ⟨gross_income, expense, total_deductions, net_income, tc.1, tc.1,
   effective_rate, tc.2⟩

/-! ## Claim C10 -/

lemma total_deductions_nonneg (d : TaxDeductions)
    (hp : 0 ≤ d.personal) (hs : 0 ≤ d.spouse)
    (hl : 0 ≤ d.life_insurance) (hh : 0 ≤ d.health_insurance)
    (hss : 0 ≤ d.social_security) (hpf : 0 ≤ d.provident_fund)
    (hssf : 0 ≤ d.ssf_current) (hrmf : 0 ≤ d.rmf_current)
    (ho : 0 ≤ d.other_deductions) :
    0 ≤ calculate_total_deductions d 0 := by
  unfold calculate_total_deductions
  unfold SPOUSE_DEDUCTION CHILD_DEDUCTION PARENT_DEDUCTION INSURANCE_LIFE_MAX
    INSURANCE_HEALTH_MAX SOCIAL_SECURITY_MAX PROVIDENT_FUND_MAX_PERCENT
    PROVIDENT_FUND_MAX SSF_MAX_PERCENT SSF_MAX_AMOUNT RMF_MAX_PERCENT
    RMF_MAX_AMOUNT
  have h1 : (0:ℚ) ≤ min d.spouse 60000 := le_min hs (by norm_num)
  have h2 : (0:ℚ) ≤ (d.children : ℚ) * 30000 := by positivity
  have h3 : (0:ℚ) ≤ min (d.parents : ℚ) 4 * 30000 := by
    have : (0:ℚ) ≤ min (d.parents : ℚ) 4 := le_min (by positivity) (by norm_num)
    positivity
  have h4 : (0:ℚ) ≤ min d.life_insurance 100000 := le_min hl (by norm_num)
  have h5 : (0:ℚ) ≤ min d.health_insurance 25000 := le_min hh (by norm_num)
  have h6 : (0:ℚ) ≤ min d.social_security 9000 := le_min hss (by norm_num)
  have h7 : (0:ℚ) ≤ min d.provident_fund (min (0 * (15/100)) 500000) := by
    apply le_min hpf
    norm_num
  have h8 : (0:ℚ) ≤ min d.ssf_current (min (0 * (30/100)) 200000) := by
    apply le_min hssf
    norm_num
  have h9 : (0:ℚ) ≤ min d.rmf_current (min (0 * (30/100)) 500000) := by
    apply le_min hrmf
    norm_num
  linarith

/-- C10: on `gross_income = 0` (with the usual non-negative deduction inputs)
`calculate_full_tax` yields zero tax and bracket label "0%", and the
marginal-rate lookup at every interior bracket boundary returns the lower
bracket's rate. -/
theorem calculateFullTax_zero_income_and_boundaries (d : TaxDeductions)
    (hp : 0 ≤ d.personal) (hs : 0 ≤ d.spouse)
    (hl : 0 ≤ d.life_insurance) (hh : 0 ≤ d.health_insurance)
    (hss : 0 ≤ d.social_security) (hpf : 0 ≤ d.provident_fund)
    (hssf : 0 ≤ d.ssf_current) (hrmf : 0 ≤ d.rmf_current)
    (ho : 0 ≤ d.other_deductions) :
    ((calculate_full_tax 0 d "salary").tax_after_deduction = 0
      ∧ (calculate_full_tax 0 d "salary").tax_bracket = "0%")
    ∧ get_marginal_rate 150000 = 0
    ∧ get_marginal_rate 300000 = 1/20
    ∧ get_marginal_rate 500000 = 1/10
    ∧ get_marginal_rate 750000 = 3/20
    ∧ get_marginal_rate 1000000 = 1/5
    ∧ get_marginal_rate 2000000 = 1/4
    ∧ get_marginal_rate 5000000 = 3/10 := by
  have htot := total_deductions_nonneg d hp hs hl hh hss hpf hssf hrmf ho
  have hexp : calculate_expense_deduction 0 "salary" = 0 := by
    unfold calculate_expense_deduction
    norm_num
  have hnet : max 0 (0 - calculate_expense_deduction 0 "salary"
      - calculate_total_deductions d 0) = 0 := by
    rw [hexp]
    simp only [zero_sub, sub_zero, neg_zero]
    rw [max_eq_left]
    linarith
  constructor
  · constructor
    · show (calculate_tax (max 0 (0 - calculate_expense_deduction 0 "salary"
        - calculate_total_deductions d 0))).1 = 0
      rw [hnet]
      unfold calculate_tax
      norm_num
    · show (calculate_tax (max 0 (0 - calculate_expense_deduction 0 "salary"
        - calculate_total_deductions d 0))).2 = "0%"
      rw [hnet]
      unfold calculate_tax
      norm_num
  · refine ⟨?_, ?_, ?_, ?_, ?_, ?_, ?_⟩ <;>
      norm_num [get_marginal_rate, TAX_BRACKETS_2567, marginal_loop]

/-- Witness for C10 at a concrete deduction record. -/
theorem calculateFullTax_zero_income_and_boundaries_witness :
    ((calculate_full_tax 0 ⟨60000, 0, 1, 2, 50000, 10000, 9000, 0, 0, 0, 0⟩
        "salary").tax_after_deduction = 0
      ∧ (calculate_full_tax 0 ⟨60000, 0, 1, 2, 50000, 10000, 9000, 0, 0, 0, 0⟩
        "salary").tax_bracket = "0%")
    ∧ get_marginal_rate 150000 = 0
    ∧ get_marginal_rate 300000 = 1/20
    ∧ get_marginal_rate 500000 = 1/10
    ∧ get_marginal_rate 750000 = 3/20
    ∧ get_marginal_rate 1000000 = 1/5
    ∧ get_marginal_rate 2000000 = 1/4
    ∧ get_marginal_rate 5000000 = 3/10 :=
  calculateFullTax_zero_income_and_boundaries
    ⟨60000, 0, 1, 2, 50000, 10000, 9000, 0, 0, 0, 0⟩
    (by norm_num) (by norm_num) (by norm_num) (by norm_num) (by norm_num)
    (by norm_num) (by norm_num) (by norm_num) (by norm_num)

/-! ## algo.py: equilibrium returns -/

/-- Matrix built by `cov_matrix.loc[assets, assets].values`, with
`assets = list(market_weights.keys())`; the dictionary is modelled as an
association list with distinct keys, so its key order is the Python
insertion order. -/
def cov_mat (cov : String → String → ℚ) (mw : List (String × ℚ)) :
    Matrix (Fin mw.length) (Fin mw.length) ℚ :=
  fun i j => cov (mw.get i).1 (mw.get j).1

/-- Entry `i` of `risk_aversion * cov @ weights + risk_free_rate`. -/
def eq_ret (cov : String → String → ℚ) (mw : List (String × ℚ))
    (risk_aversion risk_free_rate : ℚ) : Fin mw.length → ℚ :=
  fun i => risk_aversion * (cov_mat cov mw).mulVec (fun j => (mw.get j).2) i
    + risk_free_rate

/-- Function `calculate_equilibrium_returns(cov_matrix, market_weights,
risk_aversion, risk_free_rate)`: the returned `pd.Series` is modelled by the
list of its values, index-aligned with `market_weights`' keys. -/
def calculate_equilibrium_returns (cov : String → String → ℚ)
    (mw : List (String × ℚ)) (risk_aversion risk_free_rate : ℚ) : List ℚ :=
  (List.finRange mw.length).map (eq_ret cov mw risk_aversion risk_free_rate)

/-! ## algo.py: mean-variance optimizer -/

/-- Abstraction of `scipy.optimize.minimize(objective, w0, method='SLSQP',
bounds=bounds, constraints=constraints)`: given the data that determines the
optimisation problem (asset list, expected returns, covariance lookup,
risk aversion), it returns `some result.x` when `result.success` holds and
`none` otherwise. -/
def Solver : Type :=
  List String → List ℚ → (String → String → ℚ) → ℚ → Option (List ℚ)

/-- The weight vector before post-processing: the solver's `result.x` on
success, else the fallback `np.array([1/n] * n)`. -/
def solver_weights (solver : Solver) (assets : List String) (mu : List ℚ)
    (cov : String → String → ℚ) (risk_aversion : ℚ) : List ℚ :=
  match solver assets mu cov risk_aversion with
  | some x => x
  | none => List.replicate assets.length ((1 : ℚ) / assets.length)

/-- The post-processing of `_optimize_portfolio`:
`weights = np.where(weights < 0.01, 0, weights); weights / weights.sum()`. -/
def post_process (ws : List ℚ) : List ℚ :=
  let pruned := ws.map (fun w => if w < 1/100 then 0 else w)
  pruned.map (fun w => w / pruned.sum)

/-- Function `_optimize_portfolio(expected_returns, cov_matrix, risk_aversion)`
(the `pd.Series` argument is split into its index `assets` and values `mu`). -/
def optimize_portfolio (solver : Solver) (assets : List String) (mu : List ℚ)
    (cov : String → String → ℚ) (risk_aversion : ℚ) : List ℚ :=
  post_process (solver_weights solver assets mu cov risk_aversion)

/-- A solver run in which `result.success` is false. -/
def failing_solver : Solver := fun _ _ _ _ => none

/-- A solver run in which `result.success` is true and `result.x` is the
equal-weight vector. -/
def equal_weight_solver : Solver := fun assets _ _ _ =>
  some (List.replicate assets.length ((1 : ℚ) / assets.length))

/-! ## Claim C5 -/

lemma sum_map_div (l : List ℚ) (s : ℚ) : (l.map (fun w => w / s)).sum = l.sum / s := by
  induction l with
  | nil => simp
  | cons a t ih => simp [ih, add_div]

/-- C5, counterexample to the claim as stated: with 101 assets and a
non-converging solver run, the equal-weight fallback entries `1/101` all fall
below the 1% pruning threshold, the pruned vector sums to zero, and the
renormalised output does not sum to 1 (in NumPy the division by the zero sum
yields a NaN vector, which also fails the `1.0 ± 1e-6` contract). -/
theorem optimizePortfolio_sum_ne_one_all_pruned :
    ¬ |(optimize_portfolio failing_solver (List.replicate 101 "A")
        (List.replicate 101 0) (fun _ _ => 0) (5/2)).sum - 1| ≤ 1/1000000 := by
  have hlen : (List.replicate 101 "A").length = 101 := by simp
  have h1 : solver_weights failing_solver (List.replicate 101 "A")
      (List.replicate 101 0) (fun _ _ => 0) (5/2)
      = List.replicate 101 ((1 : ℚ) / 101) := by
    unfold solver_weights failing_solver
    rw [hlen]
    norm_num
  have h2 : optimize_portfolio failing_solver (List.replicate 101 "A")
      (List.replicate 101 0) (fun _ _ => 0) (5/2) = List.replicate 101 0 := by
    unfold optimize_portfolio
    rw [h1]
    unfold post_process
    rw [List.map_replicate]
    rw [if_pos (by norm_num : (1:ℚ)/101 < 1/100)]
    rw [List.map_replicate, List.sum_replicate]
    norm_num
  rw [h2, List.sum_replicate]
  norm_num

/-- C5, amended: whenever the vector produced by the solver stage (the
successful `result.x`, or the equal-weight fallback) has entries in `[0,1]`
and at least one entry survives the 1% pruning, the post-processed output has
every entry in `[0,1]` and sums exactly to 1. -/
theorem optimizePortfolio_weights_valid (solver : Solver) (assets : List String)
    (mu : List ℚ) (cov : String → String → ℚ) (risk_aversion : ℚ)
    (hw : ∀ w ∈ solver_weights solver assets mu cov risk_aversion, 0 ≤ w ∧ w ≤ 1)
    (hs : ∃ w ∈ solver_weights solver assets mu cov risk_aversion, 1/100 ≤ w) :
    (∀ w ∈ optimize_portfolio solver assets mu cov risk_aversion, 0 ≤ w ∧ w ≤ 1)
    ∧ (optimize_portfolio solver assets mu cov risk_aversion).sum = 1 := by
  set ws := solver_weights solver assets mu cov risk_aversion with hws
  set pruned := ws.map (fun w => if w < 1/100 then 0 else w) with hpruned
  have hout : optimize_portfolio solver assets mu cov risk_aversion
      = pruned.map (fun w => w / pruned.sum) := rfl
  have hnonneg : ∀ w ∈ pruned, 0 ≤ w := by
    intro w hwmem
    rw [hpruned] at hwmem
    obtain ⟨v, hv, rfl⟩ := List.mem_map.1 hwmem
    by_cases hvlt : v < 1/100
    · rw [if_pos hvlt]
    · rw [if_neg hvlt]
      exact (hw v hv).1
  have hpos : 0 < pruned.sum := by
    obtain ⟨w, hwmem, hwge⟩ := hs
    have hmem : w ∈ pruned := by
      rw [hpruned]
      have : (if w < 1/100 then (0:ℚ) else w) = w := by
        rw [if_neg (not_lt.2 hwge)]
      exact this ▸ List.mem_map_of_mem _ hwmem
    have hle : w ≤ pruned.sum := List.single_le_sum hnonneg w hmem
    linarith
  constructor
  · intro w hwmem
    rw [hout] at hwmem
    obtain ⟨v, hv, rfl⟩ := List.mem_map.1 hwmem
    have hv0 : 0 ≤ v := hnonneg v hv
    have hvle : v ≤ pruned.sum := List.single_le_sum hnonneg v hv
    exact ⟨div_nonneg hv0 hpos.le, (div_le_one hpos).2 hvle⟩
  · rw [hout, sum_map_div, div_self hpos.ne']

/-- Witness for C5 (amended) on concrete inputs: a failed solver run over four
assets, whose equal-weight fallback entries `1/4` survive pruning. -/
theorem optimizePortfolio_weights_valid_witness :
    (∀ w ∈ optimize_portfolio failing_solver ["A", "B", "C", "D"] [0, 0, 0, 0]
      (fun _ _ => 0) (5/2), 0 ≤ w ∧ w ≤ 1)
    ∧ (optimize_portfolio failing_solver ["A", "B", "C", "D"] [0, 0, 0, 0]
      (fun _ _ => 0) (5/2)).sum = 1 :=
  optimizePortfolio_weights_valid failing_solver ["A", "B", "C", "D"] [0, 0, 0, 0]
    (fun _ _ => 0) (5/2)
    (by
      intro w hwmem
      have : w = 1/4 := by
        simpa [solver_weights, failing_solver] using hwmem
      norm_num [this])
    ⟨1/4, by norm_num [solver_weights, failing_solver], by norm_num⟩

/-! ## Claim C6 -/

/-- C6: the non-convergence fallback is equal weighting, and it is invisible
to the caller — a failed solver run and a successful run returning the
equal-weight vector produce exactly the same output value, and the returned
weight list carries no success flag or warning of any kind. -/
theorem optimizePortfolio_fallback_unobservable :
    (∀ (assets : List String) (mu : List ℚ) (cov : String → String → ℚ)
        (risk_aversion : ℚ),
      optimize_portfolio failing_solver assets mu cov risk_aversion
        = optimize_portfolio equal_weight_solver assets mu cov risk_aversion
      ∧ optimize_portfolio failing_solver assets mu cov risk_aversion
        = post_process (List.replicate assets.length ((1 : ℚ) / assets.length)))
    ∧ optimize_portfolio failing_solver ["A", "B", "C", "D"] [0, 0, 0, 0]
        (fun _ _ => 0) (5/2) = [1/4, 1/4, 1/4, 1/4] := by
  constructor
  · intro assets mu cov risk_aversion
    exact ⟨rfl, rfl⟩
  · show post_process (List.replicate 4 ((1 : ℚ) / 4)) = [1/4, 1/4, 1/4, 1/4]
    unfold post_process
    norm_num [List.map_replicate, List.sum_replicate]
    rfl

/-! ## models.py: Monte Carlo simulation

NumPy's float exponential `np.exp` is abstracted as a parameter `expFn`, the
constant `np.sqrt(12)` as a parameter `sqrt12`, and the standard-normal
sampler as a parameter `normal_draws : seed → simulation index → step index →
draw` (the matrix `np.random.standard_normal((n_simulations, n_periods))`
produced after `np.random.seed(seed)`).  The process-wide NumPy RNG state
that exists before the call is passed explicitly as `global_rng_state`;
`run_monte_carlo` begins with `np.random.seed(42)`, which overwrites it. -/

/-- Dataclass `SimulationResult`. -/
structure SimulationResult where
  years : List ℚ
  paths : List (List ℚ)
  percentile_10 : List ℚ
  percentile_50 : List ℚ
  percentile_90 : List ℚ
  final_values : List ℚ
  probability_of_success : ℚ
deriving DecidableEq

/-- Sorting of a list of rationals (ascending), used by the percentile model. -/
def sort_asc (xs : List ℚ) : List ℚ :=
  List.insertionSort (fun a b => a ≤ b) xs

/-- Model of `np.percentile(xs, q)` with the default linear interpolation:
position `q*(n-1)/100` between the order statistics. -/
def np_percentile (xs : List ℚ) (q : ℚ) : ℚ :=
  let s := sort_asc xs
  let n := s.length
  let pos := q * ((n : ℚ) - 1) / 100
  let i := (⌊pos⌋).toNat
  let lo := s.getD i 0
  let hi := s.getD (i + 1) lo
  lo + (pos - (i : ℚ)) * (hi - lo)

/-- One simulated wealth path: `paths[i, 0] = current_wealth` and
`paths[i, t] = paths[i, t-1] * exp(drift + monthly_volatility *
random_shocks[i, t-1]) + monthly_contribution`. -/
def mc_path (expFn : ℚ → ℚ) (shocks : ℕ → ℕ → ℚ)
    (current_wealth monthly_contribution drift monthly_volatility : ℚ)
    (i : ℕ) : ℕ → ℚ
  | 0 => current_wealth
  | t + 1 => mc_path expFn shocks current_wealth monthly_contribution drift
      monthly_volatility i t
      * expFn (drift + monthly_volatility * shocks i t) + monthly_contribution

/-- The compounded-deterministic-growth recurrence
`S_0 = current_wealth`, `S_{t+1} = S_t * exp(d) + contribution`. -/
def det_growth (expFn : ℚ → ℚ) (current_wealth monthly_contribution d : ℚ) :
    ℕ → ℚ
  | 0 => current_wealth
  | t + 1 => det_growth expFn current_wealth monthly_contribution d t * expFn d
      + monthly_contribution

/-- Function `run_monte_carlo(current_wealth, monthly_contribution,
years_to_retire, annual_return, annual_volatility, n_simulations,
goal_amount)`.  Note that the Python function takes no seed argument: it
always executes `np.random.seed(42)`, so the draw matrix is
`normal_draws 42` regardless of `global_rng_state`.  (`monthly_return =
annual_return / 12` is computed in the source but never used.) -/
def run_monte_carlo (expFn : ℚ → ℚ) (sqrt12 : ℚ)
    (normal_draws : ℕ → ℕ → ℕ → ℚ) (_global_rng_state : ℕ)
    (current_wealth monthly_contribution : ℚ) (years_to_retire : ℕ)
    (annual_return annual_volatility : ℚ) (n_simulations : ℕ)
    (goal_amount : Option ℚ) : SimulationResult :=
  let shocks := normal_draws 42
  let n_periods := years_to_retire * 12
  let monthly_volatility := annual_volatility / sqrt12
  let drift := (annual_return - (1/2) * annual_volatility ^ 2) / 12
  let value : ℕ → ℕ → ℚ := fun i t =>
    mc_path expFn shocks current_wealth monthly_contribution drift
      monthly_volatility i t
  let paths := (List.range n_simulations).map
    (fun i => (List.range (n_periods + 1)).map (value i))
  let column : ℕ → List ℚ := fun t =>
    (List.range n_simulations).map (fun i => value i t)
  let percentile : ℚ → List ℚ := fun q =>
    (List.range (n_periods + 1)).map (fun t => np_percentile (column t) q)
  let final_values := column n_periods
  let probability_of_success : ℚ := match goal_amount with
    | some goal => (final_values.countP (fun v => goal ≤ v) : ℚ) / n_simulations
    | none => 1
  let years := (List.range (n_periods + 1)).map (fun t => (t : ℚ) / 12)
  ⟨years, paths, percentile 10, percentile 50, percentile 90, final_values,
   probability_of_success⟩

/-! ## Claim C3 -/

/-- C3 (theorem at the failing behaviour): the result of `run_monte_carlo` is
completely independent of the process-wide RNG state existing before the
call, because the call unconditionally reseeds with the constant 42; there is
no seed parameter a caller could thread through. -/
theorem runMonteCarlo_ignores_global_rng_state (expFn : ℚ → ℚ) (sqrt12 : ℚ)
    (normal_draws : ℕ → ℕ → ℕ → ℚ) (s₁ s₂ : ℕ)
    (current_wealth monthly_contribution : ℚ) (years_to_retire : ℕ)
    (annual_return annual_volatility : ℚ) (n_simulations : ℕ)
    (goal_amount : Option ℚ) :
    run_monte_carlo expFn sqrt12 normal_draws s₁ current_wealth
      monthly_contribution years_to_retire annual_return annual_volatility
      n_simulations goal_amount
    = run_monte_carlo expFn sqrt12 normal_draws s₂ current_wealth
      monthly_contribution years_to_retire annual_return annual_volatility
      n_simulations goal_amount := rfl

/-! ## Claim C4 -/

lemma mc_path_zero_vol (expFn : ℚ → ℚ) (shocks : ℕ → ℕ → ℚ)
    (current_wealth monthly_contribution annual_return sqrt12 : ℚ)
    (i t : ℕ) :
    mc_path expFn shocks current_wealth monthly_contribution
      ((annual_return - (1/2) * (0:ℚ) ^ 2) / 12) ((0:ℚ) / sqrt12) i t
    = det_growth expFn current_wealth monthly_contribution
      (annual_return / 12) t := by
  induction t with
  | zero => rfl
  | succ u ih =>
    show mc_path expFn shocks current_wealth monthly_contribution
        ((annual_return - (1/2) * (0:ℚ) ^ 2) / 12) ((0:ℚ) / sqrt12) i u
        * expFn ((annual_return - (1/2) * (0:ℚ) ^ 2) / 12
          + (0:ℚ) / sqrt12 * shocks i u) + monthly_contribution = _
    rw [ih]
    show _ = det_growth expFn current_wealth monthly_contribution
        (annual_return / 12) u * expFn (annual_return / 12)
        + monthly_contribution
    norm_num

lemma getD_map_range (f : ℕ → ℚ) (k t : ℕ) (d : ℚ) (h : t < k) :
    ((List.range k).map f).getD t d = f t := by
  rw [List.getD_eq_getElem?_getD, List.getElem?_map, List.getElem?_range h]
  rfl

lemma getD_map_range_list (f : ℕ → List ℚ) (k t : ℕ) (h : t < k) :
    ((List.range k).map f).getD t [] = f t := by
  rw [List.getD_eq_getElem?_getD, List.getElem?_map, List.getElem?_range h]
  rfl

/-- C4: every simulated path obeys the per-step update
`S_{t+1} = S_t * exp(d + σ_m * Z_{i,t}) + monthly_contribution` with
`d = (annual_return - 0.5 * annual_volatility^2)/12` and
`σ_m = annual_volatility / sqrt(12)`, the shock `Z_{i,t}` being the
per-path-per-step entry of the draw matrix; and with `annual_volatility = 0`
every path coincides with the compounded-deterministic-growth recurrence at
rate `annual_return / 12`. -/
theorem runMonteCarlo_step_update (expFn : ℚ → ℚ) (sqrt12 : ℚ)
    (normal_draws : ℕ → ℕ → ℕ → ℚ) (s : ℕ)
    (current_wealth monthly_contribution : ℚ) (years_to_retire : ℕ)
    (annual_return annual_volatility : ℚ) (n_simulations : ℕ)
    (goal_amount : Option ℚ) (i t : ℕ) (hi : i < n_simulations)
    (ht : t ≤ years_to_retire * 12) :
    ((t < years_to_retire * 12 →
      ((run_monte_carlo expFn sqrt12 normal_draws s current_wealth
          monthly_contribution years_to_retire annual_return annual_volatility
          n_simulations goal_amount).paths.getD i []).getD (t + 1) 0
      = ((run_monte_carlo expFn sqrt12 normal_draws s current_wealth
          monthly_contribution years_to_retire annual_return annual_volatility
          n_simulations goal_amount).paths.getD i []).getD t 0
        * expFn ((annual_return - (1/2) * annual_volatility ^ 2) / 12
            + annual_volatility / sqrt12 * normal_draws 42 i t)
        + monthly_contribution))
    ∧ (annual_volatility = 0 →
      ((run_monte_carlo expFn sqrt12 normal_draws s current_wealth
          monthly_contribution years_to_retire annual_return annual_volatility
          n_simulations goal_amount).paths.getD i []).getD t 0
      = det_growth expFn current_wealth monthly_contribution
          (annual_return / 12) t) := by
  have hrow : (run_monte_carlo expFn sqrt12 normal_draws s current_wealth
      monthly_contribution years_to_retire annual_return annual_volatility
      n_simulations goal_amount).paths.getD i []
      = (List.range (years_to_retire * 12 + 1)).map
        (fun u => mc_path expFn (normal_draws 42) current_wealth
          monthly_contribution
          ((annual_return - (1/2) * annual_volatility ^ 2) / 12)
          (annual_volatility / sqrt12) i u) := by
    show ((List.range n_simulations).map _).getD i [] = _
    rw [getD_map_range_list _ _ _ hi]
  have hval : ∀ u, u ≤ years_to_retire * 12 →
      ((run_monte_carlo expFn sqrt12 normal_draws s current_wealth
        monthly_contribution years_to_retire annual_return annual_volatility
        n_simulations goal_amount).paths.getD i []).getD u 0
      = mc_path expFn (normal_draws 42) current_wealth monthly_contribution
          ((annual_return - (1/2) * annual_volatility ^ 2) / 12)
          (annual_volatility / sqrt12) i u := by
    intro u hu
    rw [hrow, getD_map_range _ _ _ _ (by omega)]
  constructor
  · intro hlt
    rw [hval (t + 1) (by omega), hval t ht]
    rfl
  · intro hvol
    rw [hval t ht, hvol]
    exact mc_path_zero_vol expFn (normal_draws 42) current_wealth
      monthly_contribution annual_return sqrt12 i t

/-- Witness for C4 at concrete inputs (a linear stand-in for `exp`, two paths,
one year, zero volatility so that both conjuncts are meaningful). -/
theorem runMonteCarlo_step_update_witness :
    ((3 < 1 * 12 →
      ((run_monte_carlo (fun x => 1 + x) (7/2) (fun _ i t => (i : ℚ) + t) 0
          100 10 1 (6/100) 0 2 none).paths.getD 1 []).getD (3 + 1) 0
      = ((run_monte_carlo (fun x => 1 + x) (7/2) (fun _ i t => (i : ℚ) + t) 0
          100 10 1 (6/100) 0 2 none).paths.getD 1 []).getD 3 0
        * (fun x => (1:ℚ) + x) (((6/100) - (1/2) * (0:ℚ) ^ 2) / 12
            + (0:ℚ) / (7/2) * ((fun (_ i t : ℕ) => (i : ℚ) + t) 42 1 3))
        + 10))
    ∧ ((0:ℚ) = 0 →
      ((run_monte_carlo (fun x => 1 + x) (7/2) (fun _ i t => (i : ℚ) + t) 0
          100 10 1 (6/100) 0 2 none).paths.getD 1 []).getD 3 0
      = det_growth (fun x => 1 + x) 100 10 ((6/100) / 12) 3) :=
  runMonteCarlo_step_update (fun x => 1 + x) (7/2) (fun _ i t => (i : ℚ) + t) 0
    100 10 1 (6/100) 0 2 none 1 3 (by norm_num) (by norm_num)

/-! ## models.py: rebalancing advisor -/

/-- Dataclass `RebalanceAction`. -/
structure RebalanceAction where
  asset : String
  action : String
  current_weight : ℚ
  target_weight : ℚ
  drift : ℚ
  trade_amount : ℚ
  trade_units : ℤ
deriving DecidableEq

/-- The hard-coded default of the `asset_prices` parameter. -/
def default_asset_prices : List (String × ℚ) :=
  [("Thai Stock", 100), ("US Tech", 450), ("Gold", 180), ("Bonds", 100)]

/-- Drift of one asset: `current_weights.get(a, 0) - target_weights.get(a, 0)`. -/
def drift_of (cur tgt : List (String × ℚ)) (a : String) : ℚ :=
  dict_get cur a 0 - dict_get tgt a 0

/-- The asset universe `list(set(current) | set(target))`; Python's set order
is unspecified, so one concrete materialisation (first occurrences of the
concatenation) is used — every property proved below is order-insensitive. -/
def union_assets (cur tgt : List (String × ℚ)) : List String :=
  (cur.map Prod.fst ++ tgt.map Prod.fst).dedup

/-- The loop body of `generate_action_plan` for one asset. -/
def mk_rebalance_action (cur tgt : List (String × ℚ)) (portfolio_value : ℚ)
    (prices : List (String × ℚ)) (drift_threshold : ℚ) (a : String) :
    Option RebalanceAction :=
  let current := dict_get cur a 0
  let target := dict_get tgt a 0
  let drift := current - target
  if drift_threshold < |drift| then
    let trade_amount := |drift| * portfolio_value
    let price := dict_get prices a 100
    some ⟨a, if 0 < drift then "SELL" else "BUY", current, target, drift,
      trade_amount, int_trunc (trade_amount / price)⟩
  else none

/-- Sort key of `actions.sort(key=lambda x: abs(x.trade_amount), reverse=True)`. -/
def action_order (x y : RebalanceAction) : Prop :=
  |y.trade_amount| ≤ |x.trade_amount|

instance action_order_dec : DecidableRel action_order :=
  fun x y => inferInstanceAs (Decidable (|y.trade_amount| ≤ |x.trade_amount|))

instance action_order_total : IsTotal RebalanceAction action_order :=
  ⟨fun x y => le_total |y.trade_amount| |x.trade_amount|⟩

instance action_order_trans : IsTrans RebalanceAction action_order :=
  ⟨fun _ _ _ hxy hyz => le_trans hyz hxy⟩

/-- Function `generate_action_plan(current_weights, target_weights,
portfolio_value, asset_prices, drift_threshold)`; the final sort is stable
descending on `abs(trade_amount)`, modelled by a stable insertion sort. -/
def generate_action_plan (cur tgt : List (String × ℚ)) (portfolio_value : ℚ)
    (asset_prices : Option (List (String × ℚ))) (drift_threshold : ℚ) :
    List RebalanceAction :=
  let prices := asset_prices.getD default_asset_prices
  let actions := (union_assets cur tgt).filterMap
    (mk_rebalance_action cur tgt portfolio_value prices drift_threshold)
  List.insertionSort action_order actions

/-! ## Claim C8 -/

lemma int_trunc_of_nonneg (q : ℚ) (h : 0 ≤ q) : int_trunc q = ⌊q⌋ := by
  unfold int_trunc
  rw [if_neg (not_lt.2 h)]

lemma dict_get_pos (l : List (String × ℚ)) (a : String)
    (hl : ∀ p ∈ l, 0 < p.2) : 0 < dict_get l a 100 := by
  unfold dict_get
  cases hfind : l.find? (fun p => p.1 == a) with
  | none => norm_num
  | some p => exact hl p (List.mem_of_find?_eq_some hfind)

lemma mk_rebalance_action_asset (cur tgt : List (String × ℚ))
    (portfolio_value : ℚ) (prices : List (String × ℚ)) (drift_threshold : ℚ)
    (b : String) (act : RebalanceAction)
    (h : mk_rebalance_action cur tgt portfolio_value prices drift_threshold b
      = some act) : act.asset = b := by
  simp only [mk_rebalance_action] at h
  by_cases hc : drift_threshold < |dict_get cur b 0 - dict_get tgt b 0|
  · rw [if_pos hc] at h
    cases h
    rfl
  · rw [if_neg hc] at h
    cases h

lemma countP_asset_filterMap (f : String → Option RebalanceAction)
    (hf : ∀ b act, f b = some act → act.asset = b) (a : String) :
    ∀ l : List String, l.Nodup →
    (l.filterMap f).countP (fun act => act.asset == a)
      = if a ∈ l ∧ (f a).isSome then 1 else 0 := by
  intro l
  induction l with
  | nil => intro _; simp
  | cons b t ih =>
    intro hnd
    have hbt : b ∉ t := (List.nodup_cons.1 hnd).1
    have hnt : t.Nodup := (List.nodup_cons.1 hnd).2
    cases hfb : f b with
    | none =>
      rw [List.filterMap_cons_none hfb, ih hnt]
      by_cases hab : a = b
      · subst hab
        simp [hbt, hfb]
      · simp [hab]
    | some act =>
      have hact : act.asset = b := hf b act hfb
      rw [List.filterMap_cons_some hfb, List.countP_cons, ih hnt]
      by_cases hab : a = b
      · subst hab
        have : (act.asset == a) = true := by simp [hact]
        simp [hbt, hfb, this]
      · have : (act.asset == a) = false := by
          simp [hact]
          exact fun h => hab h.symm
        simp [hab, this]

/-- C8: for non-negative portfolio value and positive unit prices,
`generate_action_plan` (i) fills every emitted action's fields as specified
(SELL on positive drift, BUY on negative drift, amount `|drift| * value`,
units `floor(amount / price)`), (ii) emits exactly one action per asset whose
absolute drift strictly exceeds the threshold and none for any other asset,
(iii) orders the list by descending trade amount, and (iv) returns the empty
list when every asset's drift is within the threshold. -/
theorem generateActionPlan_spec (cur tgt : List (String × ℚ))
    (portfolio_value : ℚ) (asset_prices : Option (List (String × ℚ)))
    (drift_threshold : ℚ) (hpv : 0 ≤ portfolio_value)
    (hpr : ∀ p ∈ asset_prices.getD default_asset_prices, 0 < p.2) :
    (∀ act ∈ generate_action_plan cur tgt portfolio_value asset_prices
        drift_threshold,
      act.asset ∈ union_assets cur tgt
      ∧ drift_threshold < |drift_of cur tgt act.asset|
      ∧ (0 < drift_of cur tgt act.asset → act.action = "SELL")
      ∧ (drift_of cur tgt act.asset < 0 → act.action = "BUY")
      ∧ act.current_weight = dict_get cur act.asset 0
      ∧ act.target_weight = dict_get tgt act.asset 0
      ∧ act.drift = drift_of cur tgt act.asset
      ∧ act.trade_amount = |drift_of cur tgt act.asset| * portfolio_value
      ∧ act.trade_units = ⌊act.trade_amount
          / dict_get (asset_prices.getD default_asset_prices) act.asset 100⌋)
    ∧ (∀ a ∈ union_assets cur tgt,
        drift_threshold < |drift_of cur tgt a| →
        (generate_action_plan cur tgt portfolio_value asset_prices
          drift_threshold).countP (fun act => act.asset == a) = 1)
    ∧ (∀ a, |drift_of cur tgt a| ≤ drift_threshold →
        (generate_action_plan cur tgt portfolio_value asset_prices
          drift_threshold).countP (fun act => act.asset == a) = 0)
    ∧ (generate_action_plan cur tgt portfolio_value asset_prices
        drift_threshold).Sorted
        (fun x y => y.trade_amount ≤ x.trade_amount)
    ∧ ((∀ a ∈ union_assets cur tgt,
        |drift_of cur tgt a| ≤ drift_threshold) →
        generate_action_plan cur tgt portfolio_value asset_prices
          drift_threshold = []) := by
  set prices := asset_prices.getD default_asset_prices with hprices
  set f := mk_rebalance_action cur tgt portfolio_value prices drift_threshold
    with hfdef
  have hplan : generate_action_plan cur tgt portfolio_value asset_prices
      drift_threshold
      = List.insertionSort action_order ((union_assets cur tgt).filterMap f) :=
    rfl
  have hperm : List.Perm (List.insertionSort action_order
      ((union_assets cur tgt).filterMap f)) ((union_assets cur tgt).filterMap f) :=
    List.perm_insertionSort action_order _
  have hf : ∀ b act, f b = some act → act.asset = b := fun b act h =>
    mk_rebalance_action_asset cur tgt portfolio_value prices drift_threshold
      b act h
  have hmem_fields : ∀ act ∈ (union_assets cur tgt).filterMap f,
      act.asset ∈ union_assets cur tgt
      ∧ drift_threshold < |drift_of cur tgt act.asset|
      ∧ (0 < drift_of cur tgt act.asset → act.action = "SELL")
      ∧ (drift_of cur tgt act.asset < 0 → act.action = "BUY")
      ∧ act.current_weight = dict_get cur act.asset 0
      ∧ act.target_weight = dict_get tgt act.asset 0
      ∧ act.drift = drift_of cur tgt act.asset
      ∧ act.trade_amount = |drift_of cur tgt act.asset| * portfolio_value
      ∧ act.trade_units = ⌊act.trade_amount / dict_get prices act.asset 100⌋ := by
    intro act hact
    obtain ⟨a, ha, heq⟩ := List.mem_filterMap.1 hact
    have hcond : drift_threshold < |dict_get cur a 0 - dict_get tgt a 0| := by
      by_contra hnc
      rw [hfdef] at heq
      simp only [mk_rebalance_action] at heq
      rw [if_neg hnc] at heq
      cases heq
    rw [hfdef] at heq
    simp only [mk_rebalance_action] at heq
    rw [if_pos hcond] at heq
    have hacteq : act = ⟨a,
        if 0 < dict_get cur a 0 - dict_get tgt a 0 then "SELL" else "BUY",
        dict_get cur a 0, dict_get tgt a 0,
        dict_get cur a 0 - dict_get tgt a 0,
        |dict_get cur a 0 - dict_get tgt a 0| * portfolio_value,
        int_trunc (|dict_get cur a 0 - dict_get tgt a 0| * portfolio_value
          / dict_get prices a 100)⟩ := (Option.some.inj heq).symm
    subst hacteq
    have hdrift : drift_of cur tgt a = dict_get cur a 0 - dict_get tgt a 0 := rfl
    have hpricepos : 0 < dict_get prices a 100 := dict_get_pos prices a hpr
    have hamt : (0:ℚ) ≤ |dict_get cur a 0 - dict_get tgt a 0| * portfolio_value :=
      mul_nonneg (abs_nonneg _) hpv
    refine ⟨ha, ?_, ?_, ?_, rfl, rfl, rfl, rfl, ?_⟩
    · exact hdrift ▸ hcond
    · intro hpos
      show (if 0 < dict_get cur a 0 - dict_get tgt a 0 then "SELL" else "BUY")
        = "SELL"
      rw [if_pos (hdrift ▸ hpos)]
    · intro hneg
      show (if 0 < dict_get cur a 0 - dict_get tgt a 0 then "SELL" else "BUY")
        = "BUY"
      rw [if_neg (not_lt.2 (le_of_lt (hdrift ▸ hneg)))]
    · show int_trunc (|dict_get cur a 0 - dict_get tgt a 0| * portfolio_value
          / dict_get prices a 100) = _
      rw [int_trunc_of_nonneg _ (div_nonneg hamt hpricepos.le)]
  refine ⟨?_, ?_, ?_, ?_, ?_⟩
  · intro act hact
    rw [hplan] at hact
    exact hmem_fields act (hperm.mem_iff.1 hact)
  · intro a ha hgt
    rw [hplan, hperm.countP_eq]
    rw [countP_asset_filterMap f hf a (union_assets cur tgt)
      (List.nodup_dedup _)]
    have hgt' : drift_threshold < |dict_get cur a 0 - dict_get tgt a 0| := hgt
    have hsome : (f a).isSome := by
      rw [hfdef]
      simp only [mk_rebalance_action]
      rw [if_pos hgt']
      rfl
    rw [if_pos ⟨ha, hsome⟩]
  · intro a hle
    rw [hplan, hperm.countP_eq]
    rw [countP_asset_filterMap f hf a (union_assets cur tgt)
      (List.nodup_dedup _)]
    have hle' : |dict_get cur a 0 - dict_get tgt a 0| ≤ drift_threshold := hle
    have hnone : f a = none := by
      rw [hfdef]
      simp only [mk_rebalance_action]
      rw [if_neg (not_lt.2 hle')]
    rw [if_neg]
    rintro ⟨-, hsome⟩
    rw [hnone] at hsome
    cases hsome
  · have hsorted : (List.insertionSort action_order
        ((union_assets cur tgt).filterMap f)).Sorted action_order :=
      List.sorted_insertionSort action_order _
    rw [hplan]
    refine hsorted.imp_of_mem ?_
    intro x y hx hy hxy
    have hxf := hmem_fields x (hperm.mem_iff.1 hx)
    have hyf := hmem_fields y (hperm.mem_iff.1 hy)
    have hxnn : 0 ≤ x.trade_amount := by
      rw [hxf.2.2.2.2.2.2.2.1]
      exact mul_nonneg (abs_nonneg _) hpv
    have hynn : 0 ≤ y.trade_amount := by
      rw [hyf.2.2.2.2.2.2.2.1]
      exact mul_nonneg (abs_nonneg _) hpv
    have := hxy
    rw [action_order, abs_of_nonneg hxnn, abs_of_nonneg hynn] at this
    exact this
  · intro hall
    rw [hplan]
    have : (union_assets cur tgt).filterMap f = [] := by
      rw [List.filterMap_eq_nil_iff]
      intro a ha
      have hle' : |dict_get cur a 0 - dict_get tgt a 0| ≤ drift_threshold :=
        hall a ha
      rw [hfdef]
      simp only [mk_rebalance_action]
      rw [if_neg (not_lt.2 hle')]
    rw [this]
    rfl

/-- Witness for C8 on the concrete fixture of the spec:
current `{A: 0.6, B: 0.4}` versus target `{A: 0.5, B: 0.5}`, portfolio value
1,000,000, default prices, 5% threshold. -/
theorem generateActionPlan_spec_witness :
    (∀ act ∈ generate_action_plan [("A", 3/5), ("B", 2/5)]
        [("A", 1/2), ("B", 1/2)] 1000000 none (1/20),
      act.asset ∈ union_assets [("A", 3/5), ("B", 2/5)] [("A", 1/2), ("B", 1/2)]
      ∧ (1:ℚ)/20 < |drift_of [("A", 3/5), ("B", 2/5)] [("A", 1/2), ("B", 1/2)]
          act.asset|
      ∧ (0 < drift_of [("A", 3/5), ("B", 2/5)] [("A", 1/2), ("B", 1/2)]
          act.asset → act.action = "SELL")
      ∧ (drift_of [("A", 3/5), ("B", 2/5)] [("A", 1/2), ("B", 1/2)] act.asset
          < 0 → act.action = "BUY")
      ∧ act.current_weight = dict_get [("A", 3/5), ("B", 2/5)] act.asset 0
      ∧ act.target_weight = dict_get [("A", 1/2), ("B", 1/2)] act.asset 0
      ∧ act.drift = drift_of [("A", 3/5), ("B", 2/5)] [("A", 1/2), ("B", 1/2)]
          act.asset
      ∧ act.trade_amount = |drift_of [("A", 3/5), ("B", 2/5)]
          [("A", 1/2), ("B", 1/2)] act.asset| * 1000000
      ∧ act.trade_units = ⌊act.trade_amount
          / dict_get ((none : Option (List (String × ℚ))).getD
              default_asset_prices) act.asset 100⌋)
    ∧ (∀ a ∈ union_assets [("A", 3/5), ("B", 2/5)] [("A", 1/2), ("B", 1/2)],
        (1:ℚ)/20 < |drift_of [("A", 3/5), ("B", 2/5)] [("A", 1/2), ("B", 1/2)] a|
        → (generate_action_plan [("A", 3/5), ("B", 2/5)] [("A", 1/2), ("B", 1/2)]
          1000000 none (1/20)).countP (fun act => act.asset == a) = 1)
    ∧ (∀ a, |drift_of [("A", 3/5), ("B", 2/5)] [("A", 1/2), ("B", 1/2)] a|
        ≤ (1:ℚ)/20
        → (generate_action_plan [("A", 3/5), ("B", 2/5)] [("A", 1/2), ("B", 1/2)]
          1000000 none (1/20)).countP (fun act => act.asset == a) = 0)
    ∧ (generate_action_plan [("A", 3/5), ("B", 2/5)] [("A", 1/2), ("B", 1/2)]
        1000000 none (1/20)).Sorted (fun x y => y.trade_amount ≤ x.trade_amount)
    ∧ ((∀ a ∈ union_assets [("A", 3/5), ("B", 2/5)] [("A", 1/2), ("B", 1/2)],
        |drift_of [("A", 3/5), ("B", 2/5)] [("A", 1/2), ("B", 1/2)] a| ≤ (1:ℚ)/20)
        → generate_action_plan [("A", 3/5), ("B", 2/5)] [("A", 1/2), ("B", 1/2)]
          1000000 none (1/20) = []) :=
  generateActionPlan_spec [("A", 3/5), ("B", 2/5)] [("A", 1/2), ("B", 1/2)]
    1000000 none (1/20) (by norm_num)
    (by
      intro p hp
      simp only [Option.getD, default_asset_prices, List.mem_cons,
        List.not_mem_nil, or_false] at hp
      rcases hp with h | h | h | h <;> rw [h] <;> norm_num)

/-! ## algo.py: Black-Litterman blender -/

/-- Model of `np.linalg.inv`: `none` models the `LinAlgError` raised on a
singular matrix; on an invertible matrix the result is the true inverse,
written via the adjugate so that it stays computable. -/
def np_inv {k : ℕ} (M : Matrix (Fin k) (Fin k) ℚ) :
    Option (Matrix (Fin k) (Fin k) ℚ) :=
  if M.det = 0 then none else some (M.det⁻¹ • M.adjugate)

/-- The key list `assets = list(market_weights.keys())`. -/
def bl_assets (mw : List (String × ℚ)) : List String := mw.map Prod.fst

/-- Pick matrix `P`: row `i` has a 1 at column `assets.index(asset_i)` if the
asset of view `i` occurs in `assets`, and stays all-zero otherwise. -/
def bl_P (mw : List (String × ℚ)) (views : List (String × ℚ)) :
    Matrix (Fin views.length) (Fin mw.length) ℚ :=
  fun i j => if (views.get i).1 ∈ bl_assets mw
    ∧ (j : ℕ) = index_of_str (views.get i).1 (bl_assets mw) then 1 else 0

/-- View-return vector `Q` (stays 0 for a view on an unknown asset). -/
def bl_Q (mw : List (String × ℚ)) (views : List (String × ℚ)) :
    Fin views.length → ℚ :=
  fun i => if (views.get i).1 ∈ bl_assets mw then (views.get i).2 else 0

/-- Per-view confidence `view_confidences.get(asset, 0.5)`, the dictionary
defaulting to `{asset: 0.5 for asset in views}` when `None` is passed. -/
def bl_conf (views : List (String × ℚ))
    (view_confidences : Option (List (String × ℚ))) (i : Fin views.length) : ℚ :=
  dict_get (view_confidences.getD (views.map (fun v => (v.1, (1:ℚ)/2))))
    (views.get i).1 (1/2)

/-- Diagonal of `Ω`: `omega_diag[i] = (P @ (tau*Sigma) @ P.T)[i,i] /
max(conf_i, 0.1)`. -/
def bl_omega_diag (cov : String → String → ℚ) (mw : List (String × ℚ))
    (views : List (String × ℚ))
    (view_confidences : Option (List (String × ℚ))) (tau : ℚ) :
    Fin views.length → ℚ :=
  fun i => (bl_P mw views * (tau • cov_mat cov mw) * (bl_P mw views).transpose) i i
    / max (bl_conf views view_confidences i) (1/10)

/-- Steps 3-4 of `black_litterman` (the non-empty-views branch): builds `Ω`,
performs the three `np.linalg.inv` calls in source order and produces the
posterior return list `E[R] = [(τΣ)⁻¹ + PᵗΩ⁻¹P]⁻¹ [(τΣ)⁻¹π + PᵗΩ⁻¹Q]`. -/
def bl_posterior (cov : String → String → ℚ) (mw : List (String × ℚ))
    (views : List (String × ℚ))
    (view_confidences : Option (List (String × ℚ)))
    (tau risk_aversion risk_free_rate : ℚ) : Option (List ℚ) :=
  (np_inv (tau • cov_mat cov mw)).bind fun tau_Sigma_inv =>
  (np_inv (Matrix.diagonal
      (bl_omega_diag cov mw views view_confidences tau))).bind fun Omega_inv =>
  (np_inv (tau_Sigma_inv
      + (bl_P mw views).transpose * Omega_inv * bl_P mw views)).bind
    fun left_term =>
  let pi := calculate_equilibrium_returns cov mw risk_aversion risk_free_rate
  let pi_vec : Fin mw.length → ℚ := fun i => pi.getD i 0
  let right_term := tau_Sigma_inv.mulVec pi_vec
    + ((bl_P mw views).transpose * Omega_inv).mulVec (bl_Q mw views)
  some ((List.finRange mw.length).map (left_term.mulVec right_term))

/-- Function `black_litterman(cov_matrix, market_weights, views,
view_confidences, tau, risk_aversion, risk_free_rate)`; `none` models an
uncaught `LinAlgError` from one of the `np.linalg.inv` calls. -/
def black_litterman (solver : Solver) (cov : String → String → ℚ)
    (mw : List (String × ℚ)) (views : List (String × ℚ))
    (view_confidences : Option (List (String × ℚ)))
    (tau risk_aversion risk_free_rate : ℚ) : Option (List ℚ × List ℚ) :=
  let pi := calculate_equilibrium_returns cov mw risk_aversion risk_free_rate
  if views.isEmpty then
    some (pi, optimize_portfolio solver (bl_assets mw) pi cov risk_aversion)
  else
    (bl_posterior cov mw views view_confidences tau risk_aversion
      risk_free_rate).map fun post =>
      (post, optimize_portfolio solver (bl_assets mw) post cov risk_aversion)

/-! ## Claim C7 -/

/-- C7: `calculate_equilibrium_returns` returns elementwise
`risk_aversion * (Σ w)_i + risk_free_rate` (one entry per asset, in the order
of the market-weight keys); with zero risk aversion, or a zero covariance
matrix, every entry is the risk-free rate. -/
theorem computeEquilibrium_formula (cov : String → String → ℚ)
    (mw : List (String × ℚ)) (risk_aversion risk_free_rate : ℚ) :
    ((calculate_equilibrium_returns cov mw risk_aversion risk_free_rate).length
      = mw.length
    ∧ calculate_equilibrium_returns cov mw risk_aversion risk_free_rate
      = (List.finRange mw.length).map (fun i =>
          risk_aversion * (∑ j, cov (mw.get i).1 (mw.get j).1 * (mw.get j).2)
            + risk_free_rate))
    ∧ calculate_equilibrium_returns cov mw 0 risk_free_rate
      = List.replicate mw.length risk_free_rate
    ∧ calculate_equilibrium_returns (fun _ _ => 0) mw risk_aversion
        risk_free_rate
      = List.replicate mw.length risk_free_rate := by
  refine ⟨⟨?_, ?_⟩, ?_, ?_⟩
  · simp [calculate_equilibrium_returns]
  · apply List.map_congr_left
    intro i _
    simp [eq_ret, cov_mat, Matrix.mulVec, Matrix.dotProduct]
  · have : ∀ i : Fin mw.length, eq_ret cov mw 0 risk_free_rate i
        = risk_free_rate := by
      intro i
      simp [eq_ret]
    calc calculate_equilibrium_returns cov mw 0 risk_free_rate
        = (List.finRange mw.length).map (fun _ => risk_free_rate) :=
          List.map_congr_left (fun i _ => this i)
      _ = List.replicate mw.length risk_free_rate := by
          rw [List.map_const']
          simp
  · have : ∀ i : Fin mw.length,
        eq_ret (fun _ _ => 0) mw risk_aversion risk_free_rate i
        = risk_free_rate := by
      intro i
      simp [eq_ret, cov_mat, Matrix.mulVec, Matrix.dotProduct]
    calc calculate_equilibrium_returns (fun _ _ => 0) mw risk_aversion
          risk_free_rate
        = (List.finRange mw.length).map (fun _ => risk_free_rate) :=
          List.map_congr_left (fun i _ => this i)
      _ = List.replicate mw.length risk_free_rate := by
          rw [List.map_const']
          simp

/-! ## Claim C1 -/

/-- C1: with an empty view set, `black_litterman` succeeds and returns exactly
the equilibrium vector of `calculate_equilibrium_returns` together with the
weights of `_optimize_portfolio` applied to that same equilibrium vector —
the empty-view branch delegates and adds nothing. -/
theorem blackLitterman_empty_views_delegates (solver : Solver)
    (cov : String → String → ℚ) (mw : List (String × ℚ))
    (view_confidences : Option (List (String × ℚ)))
    (tau risk_aversion risk_free_rate : ℚ) :
    black_litterman solver cov mw [] view_confidences tau risk_aversion
      risk_free_rate
    = some (calculate_equilibrium_returns cov mw risk_aversion risk_free_rate,
        optimize_portfolio solver (bl_assets mw)
          (calculate_equilibrium_returns cov mw risk_aversion risk_free_rate)
          cov risk_aversion) := rfl

/-! ## Properties of the inversion model -/

lemma np_inv_some {k : ℕ} (M : Matrix (Fin k) (Fin k) ℚ) (h : M.det ≠ 0) :
    np_inv M = some (M.det⁻¹ • M.adjugate) := by
  unfold np_inv
  rw [if_neg h]

lemma np_inv_mul_self {k : ℕ} (M : Matrix (Fin k) (Fin k) ℚ) (h : M.det ≠ 0) :
    (M.det⁻¹ • M.adjugate) * M = 1 := by
  rw [Matrix.smul_mul, Matrix.adjugate_mul, smul_smul, inv_mul_cancel₀ h,
    one_smul]

lemma mul_np_inv_self {k : ℕ} (M : Matrix (Fin k) (Fin k) ℚ) (h : M.det ≠ 0) :
    M * (M.det⁻¹ • M.adjugate) = 1 := by
  rw [Matrix.mul_smul, Matrix.mul_adjugate, smul_smul, inv_mul_cancel₀ h,
    one_smul]

/-- If an explicit right inverse exists, `np_inv` succeeds and returns it. -/
lemma np_inv_eq_of_inv {k : ℕ} (M C : Matrix (Fin k) (Fin k) ℚ)
    (h1 : M * C = 1) : np_inv M = some C := by
  have hdet : M.det ≠ 0 := by
    intro h0
    have := congrArg Matrix.det h1
    rw [Matrix.det_mul, h0, Matrix.det_one, zero_mul] at this
    exact zero_ne_one this
  rw [np_inv_some M hdet]
  congr 1
  calc M.det⁻¹ • M.adjugate
      = (M.det⁻¹ • M.adjugate) * (M * C) := by rw [h1, mul_one]
    _ = ((M.det⁻¹ • M.adjugate) * M) * C := by rw [Matrix.mul_assoc]
    _ = C := by rw [np_inv_mul_self M hdet, one_mul]

lemma np_inv_fin_one (M : Matrix (Fin 1) (Fin 1) ℚ) (h : M 0 0 ≠ 0) :
    np_inv M = some ((M 0 0)⁻¹ • 1) := by
  rw [np_inv_some M (by rw [Matrix.det_fin_one]; exact h), Matrix.det_fin_one,
    Matrix.adjugate_fin_one]

/-! ## Claim C9 -/

/-- Shared core of C9: when view `i` references an asset that is not a key of
the market-weight dictionary, its pick-matrix row stays all-zero, its view
return stays 0, and `black_litterman` propagates a `LinAlgError`: the zero
row makes `Ω` singular (its diagonal entry is `0 / max(conf, 0.1) = 0`), so
`np.linalg.inv(Omega)` — or already `np.linalg.inv(tau*Sigma)` if that one is
singular — raises. -/
lemma blackLitterman_unknown_view_aux (solver : Solver)
    (cov : String → String → ℚ) (mw : List (String × ℚ))
    (views : List (String × ℚ))
    (view_confidences : Option (List (String × ℚ)))
    (tau risk_aversion risk_free_rate : ℚ) (i : Fin views.length)
    (hout : (views.get i).1 ∉ bl_assets mw) :
    (∀ j, bl_P mw views i j = 0)
    ∧ bl_Q mw views i = 0
    ∧ black_litterman solver cov mw views view_confidences tau risk_aversion
        risk_free_rate = none := by
  have hProw : ∀ j, bl_P mw views i j = 0 := by
    intro j
    unfold bl_P
    rw [if_neg]
    rintro ⟨hmem, -⟩
    exact hout hmem
  have hQ : bl_Q mw views i = 0 := by
    unfold bl_Q
    rw [if_neg hout]
  refine ⟨hProw, hQ, ?_⟩
  have homega : bl_omega_diag cov mw views view_confidences tau i = 0 := by
    unfold bl_omega_diag
    have hnum : (bl_P mw views * (tau • cov_mat cov mw)
        * (bl_P mw views).transpose) i i = 0 := by
      rw [Matrix.mul_apply]
      apply Finset.sum_eq_zero
      intro v _
      rw [Matrix.mul_apply]
      rw [Finset.sum_eq_zero]
      · rw [zero_mul]
      · intro u _
        rw [hProw u, zero_mul]
    rw [hnum, zero_div]
  have hdetO : (Matrix.diagonal
      (bl_omega_diag cov mw views view_confidences tau)).det = 0 := by
    rw [Matrix.det_diagonal]
    exact Finset.prod_eq_zero (Finset.mem_univ i) homega
  have hinvO : np_inv (Matrix.diagonal
      (bl_omega_diag cov mw views view_confidences tau)) = none := by
    unfold np_inv
    rw [if_pos hdetO]
  have hpost : bl_posterior cov mw views view_confidences tau risk_aversion
      risk_free_rate = none := by
    unfold bl_posterior
    rw [hinvO]
    cases np_inv (tau • cov_mat cov mw) <;> rfl
  have hne : ¬ views.isEmpty = true := by
    have : 0 < views.length := i.pos
    cases views with
    | nil => exact absurd this (by norm_num)
    | cons x t => exact fun h => by cases h
  unfold black_litterman
  rw [if_neg hne, hpost]
  rfl

/-- C9 (amended): a view on an asset absent from the market-weight key set
leaves its pick-matrix row all-zero and its view return zero, but the view is
not silently dropped — the zero row makes `Ω` singular, so `black_litterman`
raises `LinAlgError` (modelled as `none`) instead of returning a posterior. -/
theorem blackLitterman_unknown_view_zero_row_and_error (solver : Solver)
    (cov : String → String → ℚ) (mw : List (String × ℚ))
    (views : List (String × ℚ))
    (view_confidences : Option (List (String × ℚ)))
    (tau risk_aversion risk_free_rate : ℚ) (i : Fin views.length)
    (hout : (views.get i).1 ∉ bl_assets mw) :
    (∀ j, bl_P mw views i j = 0)
    ∧ bl_Q mw views i = 0
    ∧ black_litterman solver cov mw views view_confidences tau risk_aversion
        risk_free_rate = none :=
  blackLitterman_unknown_view_aux solver cov mw views view_confidences tau
    risk_aversion risk_free_rate i hout

/-- Witness for C9 (amended) at a concrete input: asset universe `{A}`, one
view on the unknown asset `Z`. -/
theorem blackLitterman_unknown_view_zero_row_and_error_witness :
    (∀ j, bl_P [("A", 1)] [("Z", 3/100)] ⟨0, by norm_num⟩ j = 0)
    ∧ bl_Q [("A", 1)] [("Z", 3/100)] ⟨0, by norm_num⟩ = 0
    ∧ black_litterman failing_solver (fun _ _ => 1) [("A", 1)] [("Z", 3/100)]
        none (1/20) (5/2) (1/50) = none :=
  blackLitterman_unknown_view_zero_row_and_error failing_solver (fun _ _ => 1)
    [("A", 1)] [("Z", 3/100)] none (1/20) (5/2) (1/50) ⟨0, by norm_num⟩
    (by
      show ¬ "Z" ∈ bl_assets [("A", 1)]
      simp [bl_assets])

/-- C9, counterexample to the claim as stated: with asset universe `{X, Y}`
and a view on the unknown asset `W`, `black_litterman` does NOT silently drop
the view — it raises `LinAlgError` (result `none`), because the all-zero pick
row makes `Ω` singular. -/
theorem blackLitterman_unknown_view_raises :
    black_litterman equal_weight_solver (fun a b => if a = b then 1/10 else 0)
      [("X", 3/5), ("Y", 2/5)] [("W", 1/20)] none (1/20) (5/2) (1/50) = none :=
  (blackLitterman_unknown_view_aux equal_weight_solver
    (fun a b => if a = b then 1/10 else 0) [("X", 3/5), ("Y", 2/5)]
    [("W", 1/20)] none (1/20) (5/2) (1/50) ⟨0, by norm_num⟩
    (by
      show ¬ "W" ∈ bl_assets [("X", 3/5), ("Y", 2/5)]
      simp [bl_assets])).2.2

/-! ## Single-view Black-Litterman: closed form

The source builds the pick matrix through `assets.index(asset)`; this is
`index_of_str` below (index of the first occurrence).  For the monotonicity
claim the posterior of a single view on asset `k` is computed in closed form:
`E[R] = π + ((q - π_k)/(ω + (τΣ)_kk)) · (τΣ) e_k`, which is verified against
the code's inverse-based formula by exhibiting the explicit inverse of
`(τΣ)⁻¹ + PᵗΩ⁻¹P`. -/

lemma index_of_str_get (l : List String) (hl : l.Nodup) (i : Fin l.length) :
    index_of_str (l.get i) l = i := by
  induction l with
  | nil => exact absurd i.isLt (by simp)
  | cons b t ih =>
    rcases List.nodup_cons.1 hl with ⟨hbt, hnt⟩
    induction i using Fin.cases with
    | zero => simp [index_of_str]
    | succ j =>
      have hgm : t.get j ∈ t := t.get_mem j.val j.isLt
      have hne : b ≠ t.get j := fun h => hbt (h ▸ hgm)
      show index_of_str (t.get j) (b :: t) = (j : ℕ) + 1
      unfold index_of_str
      rw [if_neg hne, ih hnt j]

/-- Standard basis vector (as a plain function, kept fully computable). -/
def unit_vec {n : ℕ} (k : Fin n) : Fin n → ℚ := fun j => if j = k then 1 else 0

lemma sum_unit_vec_mul {n : ℕ} (k : Fin n) (g : Fin n → ℚ) :
    ∑ m, unit_vec k m * g m = g k := by
  rw [Finset.sum_eq_single k]
  · simp [unit_vec]
  · intro b _ hb
    simp [unit_vec, hb]
  · intro h
    exact absurd (Finset.mem_univ k) h

lemma sum_mul_unit_vec {n : ℕ} (k : Fin n) (g : Fin n → ℚ) :
    ∑ m, g m * unit_vec k m = g k := by
  rw [Finset.sum_eq_single k]
  · simp [unit_vec]
  · intro b _ hb
    simp [unit_vec, hb]
  · intro h
    exact absurd (Finset.mem_univ k) h

lemma vecMulVec_unit_mul_mat {n : ℕ} (u : Fin n → ℚ) (k : Fin n)
    (M : Matrix (Fin n) (Fin n) ℚ) :
    Matrix.vecMulVec u (unit_vec k) * M = Matrix.vecMulVec u (fun j => M k j) := by
  ext i j
  rw [Matrix.mul_apply]
  simp only [Matrix.vecMulVec_apply]
  calc ∑ m, u i * unit_vec k m * M m j
      = u i * ∑ m, unit_vec k m * M m j := by
        rw [Finset.mul_sum]
        exact Finset.sum_congr rfl (fun m _ => by ring)
    _ = u i * M k j := by rw [sum_unit_vec_mul]

lemma mat_mul_vecMulVec_unit {n : ℕ} (v : Fin n → ℚ) (k : Fin n)
    (M : Matrix (Fin n) (Fin n) ℚ) :
    M * Matrix.vecMulVec (unit_vec k) v = Matrix.vecMulVec (fun i => M i k) v := by
  ext i j
  rw [Matrix.mul_apply]
  simp only [Matrix.vecMulVec_apply]
  calc ∑ m, M i m * (unit_vec k m * v j)
      = (∑ m, M i m * unit_vec k m) * v j := by
        rw [Finset.sum_mul]
        exact Finset.sum_congr rfl (fun m _ => by ring)
    _ = M i k * v j := by rw [sum_mul_unit_vec]

lemma vecMulVec_mul_vecMulVec {n : ℕ} (u v w x : Fin n → ℚ) :
    Matrix.vecMulVec u v * Matrix.vecMulVec w x
      = (∑ m, v m * w m) • Matrix.vecMulVec u x := by
  ext i j
  rw [Matrix.mul_apply]
  simp only [Matrix.vecMulVec_apply, Matrix.smul_apply, smul_eq_mul]
  rw [Finset.sum_mul]
  exact Finset.sum_congr rfl (fun m _ => by ring)

lemma vecMulVec_mulVec {n : ℕ} (u w v : Fin n → ℚ) :
    (Matrix.vecMulVec u w).mulVec v = (∑ m, w m * v m) • u := by
  funext i
  simp only [Matrix.mulVec, Matrix.dotProduct, Matrix.vecMulVec_apply,
    Pi.smul_apply, smul_eq_mul]
  rw [Finset.sum_mul]
  exact Finset.sum_congr rfl (fun m _ => by ring)

lemma mulVec_unit_vec {n : ℕ} (M : Matrix (Fin n) (Fin n) ℚ) (k : Fin n) :
    M.mulVec (unit_vec k) = fun i => M i k := by
  funext i
  simp only [Matrix.mulVec, Matrix.dotProduct]
  exact sum_mul_unit_vec k (fun j => M i j)

lemma getD_map_finRange {n : ℕ} (f : Fin n → ℚ) (k : Fin n) (d : ℚ) :
    ((List.finRange n).map f).getD (k : ℕ) d = f k := by
  have hlen : (k : ℕ) < ((List.finRange n).map f).length := by simp
  rw [List.getD_eq_getElem?_getD, List.getElem?_eq_getElem hlen]
  simp

/-- Closed form of the single-view posterior:
`E[R]_i = π_i + ((q - π_k) / (ω + (τΣ)_kk)) * ((τΣ) e_k)_i` with
`ω = (τΣ)_kk / max(c, 0.1)`. -/
def single_view_posterior (cov : String → String → ℚ) (mw : List (String × ℚ))
    (q c tau δ rf : ℚ) (k : Fin mw.length) : List ℚ :=
  (List.finRange mw.length).map (fun i =>
    eq_ret cov mw δ rf i
    + (q - eq_ret cov mw δ rf k)
      / ((tau • cov_mat cov mw) k k / max c (1/10) + (tau • cov_mat cov mw) k k)
      * (tau • cov_mat cov mw).mulVec (unit_vec k) i)

lemma bl_assets_get (mw : List (String × ℚ)) (k : Fin mw.length) (a : String)
    (hak : (mw.get k).1 = a) (hklt : (k : ℕ) < (bl_assets mw).length) :
    (bl_assets mw).get ⟨k, hklt⟩ = a := by
  show (mw.map Prod.fst).get ⟨k, hklt⟩ = a
  rw [List.get_eq_getElem, List.getElem_map]
  exact hak

lemma bl_P_single_apply (mw : List (String × ℚ))
    (a : String) (q : ℚ) (k : Fin mw.length) (hnd : (bl_assets mw).Nodup)
    (hak : (mw.get k).1 = a) :
    ∀ (i : Fin ([(a, q)] : List (String × ℚ)).length) (j : Fin mw.length),
      bl_P mw [(a, q)] i j = unit_vec k j := by
  intro i j
  have hklt : (k : ℕ) < (bl_assets mw).length := by
    simp [bl_assets]
  have hget : (bl_assets mw).get ⟨k, hklt⟩ = a := bl_assets_get mw k a hak hklt
  have hmem : a ∈ bl_assets mw := by
    rw [← hget]
    exact List.get_mem _ _ _
  have hidx : index_of_str a (bl_assets mw) = (k : ℕ) := by
    rw [← hget]
    exact index_of_str_get (bl_assets mw) hnd ⟨k, hklt⟩
  have hview : (([(a, q)] : List (String × ℚ)).get i) = (a, q) := by
    fin_cases i
    rfl
  show (if (([(a, q)] : List (String × ℚ)).get i).1 ∈ bl_assets mw
      ∧ (j : ℕ) = index_of_str (([(a, q)] : List (String × ℚ)).get i).1
          (bl_assets mw) then (1:ℚ) else 0) = unit_vec k j
  rw [hview]
  by_cases hjk : j = k
  · subst hjk
    rw [if_pos ⟨hmem, by rw [hidx]⟩]
    simp [unit_vec]
  · rw [if_neg, unit_vec]
    · simp [hjk]
    · rintro ⟨-, hj⟩
      rw [hidx] at hj
      exact hjk (Fin.ext hj)

lemma bl_Q_single (mw : List (String × ℚ)) (a : String) (q : ℚ)
    (hmem : a ∈ bl_assets mw) :
    bl_Q mw [(a, q)] = fun _ => q := by
  funext i
  have hview : (([(a, q)] : List (String × ℚ)).get i) = (a, q) := by
    fin_cases i
    rfl
  show (if (([(a, q)] : List (String × ℚ)).get i).1 ∈ bl_assets mw
      then (([(a, q)] : List (String × ℚ)).get i).2 else 0) = q
  rw [hview, if_pos hmem]

lemma bl_conf_single (a : String) (q c : ℚ)
    (i : Fin ([(a, q)] : List (String × ℚ)).length) :
    bl_conf [(a, q)] (some [(a, c)]) i = c := by
  have hview : (([(a, q)] : List (String × ℚ)).get i) = (a, q) := by
    fin_cases i
    rfl
  show dict_get [(a, c)] (([(a, q)] : List (String × ℚ)).get i).1 (1/2) = c
  rw [hview]
  show dict_get [(a, c)] a (1/2) = c
  simp only [dict_get]
  rw [List.find?_cons_of_pos _ (by simp)]

lemma bl_omega_single (cov : String → String → ℚ) (mw : List (String × ℚ))
    (a : String) (q c tau : ℚ) (k : Fin mw.length)
    (hnd : (bl_assets mw).Nodup) (hak : (mw.get k).1 = a) :
    bl_omega_diag cov mw [(a, q)] (some [(a, c)]) tau
      = fun _ => (tau • cov_mat cov mw) k k / max c (1/10) := by
  funext i
  unfold bl_omega_diag
  rw [bl_conf_single a q c i]
  congr 1
  have hP := bl_P_single_apply mw a q k hnd hak
  rw [Matrix.mul_apply]
  have hinner : ∀ v, (bl_P mw [(a, q)] * (tau • cov_mat cov mw)) i v
      = (tau • cov_mat cov mw) k v := by
    intro v
    rw [Matrix.mul_apply]
    calc ∑ u, bl_P mw [(a, q)] i u * (tau • cov_mat cov mw) u v
        = ∑ u, unit_vec k u * (tau • cov_mat cov mw) u v :=
          Finset.sum_congr rfl (fun u _ => by rw [hP i u])
      _ = (tau • cov_mat cov mw) k v :=
          sum_unit_vec_mul k (fun u => (tau • cov_mat cov mw) u v)
  calc ∑ v, (bl_P mw [(a, q)] * (tau • cov_mat cov mw)) i v
        * (bl_P mw [(a, q)]).transpose v i
      = ∑ v, (tau • cov_mat cov mw) k v * unit_vec k v :=
        Finset.sum_congr rfl (fun v _ => by
          rw [hinner v, Matrix.transpose_apply, hP i v])
    _ = (tau • cov_mat cov mw) k k :=
        sum_mul_unit_vec k (fun v => (tau • cov_mat cov mw) k v)

lemma BC_eq_one {n : ℕ} (S A : Matrix (Fin n) (Fin n) ℚ) (k : Fin n) (ω : ℚ)
    (hAS : A * S = 1) (hω : ω ≠ 0) (hωS : ω + S k k ≠ 0) :
    (A + ω⁻¹ • Matrix.vecMulVec (unit_vec k) (unit_vec k))
      * (S - (ω + S k k)⁻¹
          • (S * Matrix.vecMulVec (unit_vec k) (unit_vec k) * S)) = 1 := by
  have hES : Matrix.vecMulVec (unit_vec k) (unit_vec k) * S
      = Matrix.vecMulVec (unit_vec k) (fun j => S k j) :=
    vecMulVec_unit_mul_mat (unit_vec k) k S
  have hT : S * Matrix.vecMulVec (unit_vec k) (unit_vec k) * S
      = S * (Matrix.vecMulVec (unit_vec k) (unit_vec k) * S) :=
    Matrix.mul_assoc _ _ _
  have hAT : A * (S * Matrix.vecMulVec (unit_vec k) (unit_vec k) * S)
      = Matrix.vecMulVec (unit_vec k) (unit_vec k) * S := by
    rw [hT, ← Matrix.mul_assoc, hAS, one_mul]
  have hET : Matrix.vecMulVec (unit_vec k) (unit_vec k)
      * (S * Matrix.vecMulVec (unit_vec k) (unit_vec k) * S)
      = S k k • (Matrix.vecMulVec (unit_vec k) (unit_vec k) * S) := by
    rw [hT, ← Matrix.mul_assoc, hES, vecMulVec_mul_vecMulVec,
      sum_mul_unit_vec k (fun m => S k m)]
  rw [Matrix.add_mul, Matrix.mul_sub, Matrix.mul_sub, Matrix.mul_smul,
    Matrix.mul_smul, Matrix.smul_mul, Matrix.smul_mul, hAS, hAT, hET, hES]
  match_scalars
  · ring
  · field_simp
    ring

lemma CB_eq_one {n : ℕ} (S A : Matrix (Fin n) (Fin n) ℚ) (k : Fin n) (ω : ℚ)
    (hSA : S * A = 1) (hω : ω ≠ 0) (hωS : ω + S k k ≠ 0) :
    (S - (ω + S k k)⁻¹
        • (S * Matrix.vecMulVec (unit_vec k) (unit_vec k) * S))
      * (A + ω⁻¹ • Matrix.vecMulVec (unit_vec k) (unit_vec k)) = 1 := by
  have hSE : S * Matrix.vecMulVec (unit_vec k) (unit_vec k)
      = Matrix.vecMulVec (fun i => S i k) (unit_vec k) :=
    mat_mul_vecMulVec_unit (unit_vec k) k S
  have hTA : (S * Matrix.vecMulVec (unit_vec k) (unit_vec k) * S) * A
      = S * Matrix.vecMulVec (unit_vec k) (unit_vec k) := by
    rw [Matrix.mul_assoc, hSA, mul_one]
  have hTE : (S * Matrix.vecMulVec (unit_vec k) (unit_vec k) * S)
      * Matrix.vecMulVec (unit_vec k) (unit_vec k)
      = S k k • (S * Matrix.vecMulVec (unit_vec k) (unit_vec k)) := by
    rw [Matrix.mul_assoc, hSE, vecMulVec_mul_vecMulVec,
      sum_unit_vec_mul k (fun m => S m k)]
  rw [Matrix.sub_mul, Matrix.mul_add, Matrix.mul_add, Matrix.mul_smul,
    Matrix.smul_mul, Matrix.smul_mul, Matrix.mul_smul, hSA, hTA, hTE]
  match_scalars
  · ring
  · field_simp

lemma single_view_coeff (pi q w t : ℚ) (hw : w ≠ 0) (hwt : w + t ≠ 0) :
    (q - pi) / (w + t) + w⁻¹ * ((pi + (q - pi) / (w + t) * t) * 1) = w⁻¹ * (q * 1) := by
  field_simp
  ring

lemma bl_posterior_single_view (cov : String → String → ℚ)
    (mw : List (String × ℚ)) (a : String) (q c tau δ rf : ℚ)
    (k : Fin mw.length) (hnd : (bl_assets mw).Nodup)
    (hak : (mw.get k).1 = a)
    (hdet : (tau • cov_mat cov mw).det ≠ 0)
    (hSkk : 0 < (tau • cov_mat cov mw) k k) :
    bl_posterior cov mw [(a, q)] (some [(a, c)]) tau δ rf
      = some (single_view_posterior cov mw q c tau δ rf k) := by
  have hP := bl_P_single_apply mw a q k hnd hak
  have hklt : (k : ℕ) < (bl_assets mw).length := by
    simp [bl_assets]
  have hmem : a ∈ bl_assets mw := by
    rw [← bl_assets_get mw k a hak hklt]
    exact List.get_mem _ _ _
  have hmax : (0:ℚ) < max c (1/10) :=
    lt_of_lt_of_le (by norm_num) (le_max_right _ _)
  have hω : 0 < (tau • cov_mat cov mw) k k / max c (1/10) :=
    div_pos hSkk hmax
  have hωS : 0 < (tau • cov_mat cov mw) k k / max c (1/10)
      + (tau • cov_mat cov mw) k k := by linarith
  have hAS : ((tau • cov_mat cov mw).det⁻¹ • (tau • cov_mat cov mw).adjugate)
      * (tau • cov_mat cov mw) = 1 := np_inv_mul_self _ hdet
  have hSA : (tau • cov_mat cov mw)
      * ((tau • cov_mat cov mw).det⁻¹ • (tau • cov_mat cov mw).adjugate) = 1 :=
    mul_np_inv_self _ hdet
  have hsub : ∀ x y : Fin (([(a, q)] : List (String × ℚ)).length), x = y := by
    intro x y
    have hx := x.isLt
    have hy := y.isLt
    simp only [List.length_cons, List.length_nil] at hx hy
    exact Fin.ext (by omega)
  have hPtP : (bl_P mw [(a, q)]).transpose * bl_P mw [(a, q)]
      = Matrix.vecMulVec (unit_vec k) (unit_vec k) := by
    ext i j
    rw [Matrix.mul_apply]
    rw [Finset.sum_eq_single (⟨0, by simp⟩ : Fin (([(a, q)] : List (String × ℚ)).length))
      (fun b _ hb => absurd (hsub b _) hb)
      (fun h => absurd (Finset.mem_univ _) h)]
    rw [Matrix.transpose_apply, hP _ i, hP _ j]
    rfl
  have hmid : (bl_P mw [(a, q)]).transpose
      * (((tau • cov_mat cov mw) k k / max c (1/10))⁻¹
          • (1 : Matrix (Fin (([(a, q)] : List (String × ℚ)).length))
              (Fin (([(a, q)] : List (String × ℚ)).length)) ℚ))
      * bl_P mw [(a, q)]
      = ((tau • cov_mat cov mw) k k / max c (1/10))⁻¹
          • Matrix.vecMulVec (unit_vec k) (unit_vec k) := by
    rw [Matrix.mul_smul, Matrix.mul_one, Matrix.smul_mul, hPtP]
  have hOmegaInv : np_inv (Matrix.diagonal
      (fun _ : Fin (([(a, q)] : List (String × ℚ)).length) =>
        (tau • cov_mat cov mw) k k / max c (1/10)))
      = some (((tau • cov_mat cov mw) k k / max c (1/10))⁻¹ • 1) := by
    have hd : (Matrix.diagonal (fun _ : Fin 1 =>
        (tau • cov_mat cov mw) k k / max c (1/10))) 0 0
        = (tau • cov_mat cov mw) k k / max c (1/10) :=
      Matrix.diagonal_apply_eq _ 0
    have h1 : np_inv (Matrix.diagonal (fun _ : Fin 1 =>
        (tau • cov_mat cov mw) k k / max c (1/10)))
        = some (((tau • cov_mat cov mw) k k / max c (1/10))⁻¹ • 1) := by
      rw [np_inv_fin_one _ (by rw [hd]; exact hω.ne'), hd]
    exact h1
  have hB3 : np_inv
      (((tau • cov_mat cov mw).det⁻¹ • (tau • cov_mat cov mw).adjugate)
        + (bl_P mw [(a, q)]).transpose
          * (((tau • cov_mat cov mw) k k / max c (1/10))⁻¹
              • (1 : Matrix (Fin (([(a, q)] : List (String × ℚ)).length))
              (Fin (([(a, q)] : List (String × ℚ)).length)) ℚ))
          * bl_P mw [(a, q)])
      = some ((tau • cov_mat cov mw)
          - ((tau • cov_mat cov mw) k k / max c (1/10)
              + (tau • cov_mat cov mw) k k)⁻¹
            • ((tau • cov_mat cov mw)
                * Matrix.vecMulVec (unit_vec k) (unit_vec k)
                * (tau • cov_mat cov mw))) := by
    rw [hmid]
    exact np_inv_eq_of_inv _ _
      (BC_eq_one (tau • cov_mat cov mw)
        ((tau • cov_mat cov mw).det⁻¹ • (tau • cov_mat cov mw).adjugate)
        k ((tau • cov_mat cov mw) k k / max c (1/10)) hAS hω.ne' hωS.ne')
  have hpivec : (fun i : Fin mw.length =>
      (calculate_equilibrium_returns cov mw δ rf).getD (i : ℕ) 0)
      = eq_ret cov mw δ rf := by
    funext i
    show ((List.finRange mw.length).map (eq_ret cov mw δ rf)).getD (i : ℕ) 0
      = eq_ret cov mw δ rf i
    exact getD_map_finRange _ i 0
  have hQvec : ((bl_P mw [(a, q)]).transpose
      * (((tau • cov_mat cov mw) k k / max c (1/10))⁻¹
          • (1 : Matrix (Fin (([(a, q)] : List (String × ℚ)).length))
              (Fin (([(a, q)] : List (String × ℚ)).length)) ℚ))).mulVec
        (fun _ => q)
      = (((tau • cov_mat cov mw) k k / max c (1/10))⁻¹ * q) • unit_vec k := by
    have h1 : (bl_P mw [(a, q)]).transpose.mulVec (fun _ => q)
        = q • unit_vec k := by
      funext i
      simp only [Matrix.mulVec, Matrix.dotProduct, Matrix.transpose_apply]
      rw [Finset.sum_eq_single
        (⟨0, by simp⟩ : Fin (([(a, q)] : List (String × ℚ)).length))
        (fun b _ hb => absurd (hsub b _) hb)
        (fun h => absurd (Finset.mem_univ _) h)]
      rw [hP _ i]
      simp [mul_comm]
    rw [Matrix.mul_smul, Matrix.mul_one, Matrix.smul_mulVec_assoc, h1,
      smul_smul]
  have hEμ : (Matrix.vecMulVec (unit_vec k) (unit_vec k)).mulVec
      (eq_ret cov mw δ rf
        + ((q - eq_ret cov mw δ rf k)
            / ((tau • cov_mat cov mw) k k / max c (1/10)
              + (tau • cov_mat cov mw) k k))
          • (tau • cov_mat cov mw).mulVec (unit_vec k))
      = (eq_ret cov mw δ rf k
          + (q - eq_ret cov mw δ rf k)
            / ((tau • cov_mat cov mw) k k / max c (1/10)
              + (tau • cov_mat cov mw) k k)
            * (tau • cov_mat cov mw) k k) • unit_vec k := by
    rw [vecMulVec_mulVec, sum_unit_vec_mul]
    congr 1
    simp [mulVec_unit_vec]
  have hkey : (((tau • cov_mat cov mw).det⁻¹ • (tau • cov_mat cov mw).adjugate)
      + ((tau • cov_mat cov mw) k k / max c (1/10))⁻¹
        • Matrix.vecMulVec (unit_vec k) (unit_vec k)).mulVec
      (eq_ret cov mw δ rf
        + ((q - eq_ret cov mw δ rf k)
            / ((tau • cov_mat cov mw) k k / max c (1/10)
              + (tau • cov_mat cov mw) k k))
          • (tau • cov_mat cov mw).mulVec (unit_vec k))
      = ((tau • cov_mat cov mw).det⁻¹
          • (tau • cov_mat cov mw).adjugate).mulVec (eq_ret cov mw δ rf)
        + (((tau • cov_mat cov mw) k k / max c (1/10))⁻¹ * q) • unit_vec k := by
    have hsmulE : ((((tau • cov_mat cov mw) k k / max c (1/10))⁻¹
        • Matrix.vecMulVec (unit_vec k) (unit_vec k)).mulVec
        (eq_ret cov mw δ rf
          + ((q - eq_ret cov mw δ rf k)
              / ((tau • cov_mat cov mw) k k / max c (1/10)
                + (tau • cov_mat cov mw) k k))
            • (tau • cov_mat cov mw).mulVec (unit_vec k)))
        = ((tau • cov_mat cov mw) k k / max c (1/10))⁻¹
          • ((eq_ret cov mw δ rf k
              + (q - eq_ret cov mw δ rf k)
                / ((tau • cov_mat cov mw) k k / max c (1/10)
                  + (tau • cov_mat cov mw) k k)
                * (tau • cov_mat cov mw) k k) • unit_vec k) := by
      rw [Matrix.smul_mulVec_assoc, hEμ]
    rw [Matrix.add_mulVec, Matrix.mulVec_add, Matrix.mulVec_smul,
      Matrix.mulVec_mulVec, hAS, Matrix.one_mulVec, hsmulE]
    funext i
    simp only [Pi.add_apply, Pi.smul_apply, smul_eq_mul]
    by_cases hik : i = k
    · have he1 : unit_vec k i = (1:ℚ) := by
        rw [unit_vec, if_pos hik]
      rw [he1]
      have hco := single_view_coeff (eq_ret cov mw δ rf k) q
        ((tau • cov_mat cov mw) k k / max c (1/10)) ((tau • cov_mat cov mw) k k)
        hω.ne' hωS.ne'
      linarith
    · have he0 : unit_vec k i = (0:ℚ) := by
        rw [unit_vec, if_neg hik]
      rw [he0]
      ring
  have hCB : ((tau • cov_mat cov mw)
      - ((tau • cov_mat cov mw) k k / max c (1/10)
          + (tau • cov_mat cov mw) k k)⁻¹
        • ((tau • cov_mat cov mw) * Matrix.vecMulVec (unit_vec k) (unit_vec k)
            * (tau • cov_mat cov mw)))
      * (((tau • cov_mat cov mw).det⁻¹ • (tau • cov_mat cov mw).adjugate)
        + ((tau • cov_mat cov mw) k k / max c (1/10))⁻¹
          • Matrix.vecMulVec (unit_vec k) (unit_vec k)) = 1 :=
    CB_eq_one (tau • cov_mat cov mw)
      ((tau • cov_mat cov mw).det⁻¹ • (tau • cov_mat cov mw).adjugate)
      k ((tau • cov_mat cov mw) k k / max c (1/10)) hSA hω.ne' hωS.ne'
  have hfinal : ((tau • cov_mat cov mw)
      - ((tau • cov_mat cov mw) k k / max c (1/10)
          + (tau • cov_mat cov mw) k k)⁻¹
        • ((tau • cov_mat cov mw) * Matrix.vecMulVec (unit_vec k) (unit_vec k)
            * (tau • cov_mat cov mw))).mulVec
      (((tau • cov_mat cov mw).det⁻¹
          • (tau • cov_mat cov mw).adjugate).mulVec (eq_ret cov mw δ rf)
        + (((tau • cov_mat cov mw) k k / max c (1/10))⁻¹ * q) • unit_vec k)
      = eq_ret cov mw δ rf
        + ((q - eq_ret cov mw δ rf k)
            / ((tau • cov_mat cov mw) k k / max c (1/10)
              + (tau • cov_mat cov mw) k k))
          • (tau • cov_mat cov mw).mulVec (unit_vec k) := by
    rw [← hkey, Matrix.mulVec_mulVec, hCB, Matrix.one_mulVec]
  simp only [bl_posterior]
  rw [np_inv_some _ hdet, Option.some_bind,
    bl_omega_single cov mw a q c tau k hnd hak, hOmegaInv, Option.some_bind,
    hB3, Option.some_bind, bl_Q_single mw a q hmem, hpivec, hQvec, hfinal]
  refine congrArg some ?_
  unfold single_view_posterior
  apply List.map_congr_left
  intro i _
  simp [Pi.add_apply, Pi.smul_apply, smul_eq_mul]

lemma blackLitterman_single_view (solver : Solver) (cov : String → String → ℚ)
    (mw : List (String × ℚ)) (a : String) (q c tau δ rf : ℚ)
    (k : Fin mw.length) (hnd : (bl_assets mw).Nodup)
    (hak : (mw.get k).1 = a)
    (hdet : (tau • cov_mat cov mw).det ≠ 0)
    (hSkk : 0 < (tau • cov_mat cov mw) k k) :
    black_litterman solver cov mw [(a, q)] (some [(a, c)]) tau δ rf
      = some (single_view_posterior cov mw q c tau δ rf k,
          optimize_portfolio solver (bl_assets mw)
            (single_view_posterior cov mw q c tau δ rf k) cov δ) := by
  show (bl_posterior cov mw [(a, q)] (some [(a, c)]) tau δ rf).map
      (fun post => (post, optimize_portfolio solver (bl_assets mw) post cov δ))
    = _
  rw [bl_posterior_single_view cov mw a q c tau δ rf k hnd hak hdet hSkk]
  rfl

lemma single_view_posterior_getD (cov : String → String → ℚ)
    (mw : List (String × ℚ)) (q c tau δ rf : ℚ) (k : Fin mw.length) :
    (single_view_posterior cov mw q c tau δ rf k).getD (k : ℕ) 0
      = eq_ret cov mw δ rf k
        + (q - eq_ret cov mw δ rf k)
          / ((tau • cov_mat cov mw) k k / max c (1/10)
            + (tau • cov_mat cov mw) k k)
          * (tau • cov_mat cov mw) k k := by
  unfold single_view_posterior
  rw [getD_map_finRange]
  simp [mulVec_unit_vec]

lemma half_dist (pi q t : ℚ) (ht : t ≠ 0) :
    pi + (q - pi) / (t / 1 + t) * t - q = (pi - q) / 2 := by
  rw [div_one, show t + t = 2 * t from by ring, div_mul_eq_mul_div,
    mul_div_mul_right _ _ ht]
  ring

lemma ten_eleven_dist (pi q t : ℚ) (ht : t ≠ 0) :
    pi + (q - pi) / (t / (1/10) + t) * t - q = (pi - q) * (10/11) := by
  rw [show t / ((1:ℚ)/10) + t = 11 * t from by ring, div_mul_eq_mul_div,
    mul_div_mul_right _ _ ht]
  ring

/-- C2 (amended): for a single view `(a, q)` on asset `a` sitting at position
`k` of the market-weight keys, provided `τΣ` is invertible with
`(τΣ)_kk > 0` (the spec's own requirement that the covariance be an
invertible PSD matrix) and the view value `q` differs from the asset's
equilibrium return, the posterior return of that asset under confidence 1.0
is strictly closer to `q` than the posterior under confidence 0.1. -/
theorem blackLitterman_confidence_monotone (solver : Solver)
    (cov : String → String → ℚ) (mw : List (String × ℚ)) (a : String)
    (q tau δ rf : ℚ) (k : Fin mw.length) (hnd : (bl_assets mw).Nodup)
    (hak : (mw.get k).1 = a)
    (hdet : (tau • cov_mat cov mw).det ≠ 0)
    (hSkk : 0 < (tau • cov_mat cov mw) k k)
    (hq : q ≠ eq_ret cov mw δ rf k) :
    ∃ p1 w1 p2 w2,
      black_litterman solver cov mw [(a, q)] (some [(a, 1)]) tau δ rf
        = some (p1, w1)
      ∧ black_litterman solver cov mw [(a, q)] (some [(a, 1/10)]) tau δ rf
        = some (p2, w2)
      ∧ |p1.getD (k : ℕ) 0 - q| < |p2.getD (k : ℕ) 0 - q| := by
  refine ⟨_, _, _, _,
    blackLitterman_single_view solver cov mw a q 1 tau δ rf k hnd hak hdet hSkk,
    blackLitterman_single_view solver cov mw a q (1/10) tau δ rf k hnd hak hdet
      hSkk, ?_⟩
  rw [single_view_posterior_getD, single_view_posterior_getD]
  have hmax1 : max (1:ℚ) (1/10) = 1 := max_eq_left (by norm_num)
  have hmax2 : max ((1:ℚ)/10) (1/10) = 1/10 := max_self _
  rw [hmax1, hmax2]
  have ht := hSkk
  have h1 : eq_ret cov mw δ rf k
      + (q - eq_ret cov mw δ rf k)
        / ((tau • cov_mat cov mw) k k / 1 + (tau • cov_mat cov mw) k k)
        * (tau • cov_mat cov mw) k k - q
      = (eq_ret cov mw δ rf k - q) / 2 :=
    half_dist (eq_ret cov mw δ rf k) q ((tau • cov_mat cov mw) k k) ht.ne'
  have h2 : eq_ret cov mw δ rf k
      + (q - eq_ret cov mw δ rf k)
        / ((tau • cov_mat cov mw) k k / (1/10) + (tau • cov_mat cov mw) k k)
        * (tau • cov_mat cov mw) k k - q
      = (eq_ret cov mw δ rf k - q) * (10/11) :=
    ten_eleven_dist (eq_ret cov mw δ rf k) q ((tau • cov_mat cov mw) k k) ht.ne'
  rw [h1, h2]
  have hpq : 0 < |eq_ret cov mw δ rf k - q| :=
    abs_pos.2 (sub_ne_zero.2 (fun h => hq h.symm))
  rw [abs_div, abs_mul]
  rw [show |(2:ℚ)| = 2 from by norm_num, show |(10:ℚ)/11| = 10/11 from by norm_num]
  linarith

lemma fin_singleton_eq (s : String) (w : ℚ)
    (x y : Fin (([(s, w)] : List (String × ℚ)).length)) : x = y := by
  have hx := x.isLt
  have hy := y.isLt
  simp only [List.length_cons, List.length_nil] at hx hy
  exact Fin.ext (by omega)

lemma eq_ret_singleton (cov : String → String → ℚ) (s : String) (w δ rf : ℚ)
    (k : Fin (([(s, w)] : List (String × ℚ)).length)) :
    eq_ret cov [(s, w)] δ rf k = δ * (cov s s * w) + rf := by
  have hk : k = ⟨0, by simp⟩ := fin_singleton_eq s w k _
  subst hk
  unfold eq_ret
  congr 1
  congr 1
  simp only [Matrix.mulVec, Matrix.dotProduct]
  rw [Finset.sum_eq_single (⟨0, by simp⟩ : Fin (([(s, w)] : List (String × ℚ)).length))
    (fun b _ hb => absurd (fin_singleton_eq s w b _) hb)
    (fun h => absurd (Finset.mem_univ _) h)]
  rfl

lemma smul_cov_singleton (cov : String → String → ℚ) (s : String) (w tau : ℚ)
    (x y : Fin (([(s, w)] : List (String × ℚ)).length)) :
    (tau • cov_mat cov [(s, w)]) x y = tau * cov s s := by
  have hx : x = ⟨0, by simp⟩ := fin_singleton_eq s w x _
  have hy : y = ⟨0, by simp⟩ := fin_singleton_eq s w y _
  subst hx
  subst hy
  rfl

lemma det_smul_cov_singleton (cov : String → String → ℚ) (s : String)
    (w tau : ℚ) :
    (tau • cov_mat cov [(s, w)]).det = tau * cov s s := by
  have hdf : ∀ N : Matrix (Fin 1) (Fin 1) ℚ, N.det = N 0 0 := Matrix.det_fin_one
  exact (hdf (tau • cov_mat cov [(s, w)])).trans
    (smul_cov_singleton cov s w tau _ _)

/-- Witness for C2 (amended) at a concrete input: one asset `A` with unit
variance, a view value 0.05 differing from the equilibrium return 2.52. -/
theorem blackLitterman_confidence_monotone_witness :
    ∃ p1 w1 p2 w2,
      black_litterman failing_solver (fun _ _ => 1) [("A", 1)] [("A", 1/20)]
        (some [("A", 1)]) (1/20) (5/2) (1/50) = some (p1, w1)
      ∧ black_litterman failing_solver (fun _ _ => 1) [("A", 1)] [("A", 1/20)]
        (some [("A", 1/10)]) (1/20) (5/2) (1/50) = some (p2, w2)
      ∧ |p1.getD 0 0 - 1/20| < |p2.getD 0 0 - 1/20| :=
  blackLitterman_confidence_monotone failing_solver (fun _ _ => 1) [("A", 1)]
    "A" (1/20) (1/20) (5/2) (1/50) ⟨0, by simp⟩
    (by simp [bl_assets]) rfl
    (by rw [det_smul_cov_singleton]; norm_num)
    (by rw [smul_cov_singleton]; norm_num)
    (by rw [eq_ret_singleton]; norm_num)

/-- C2, counterexample to the claim as stated: when the single view's value
equals the asset's equilibrium return (view 2.52 on `A` whose equilibrium
return is 2.52), the posterior equals the view value under both confidences,
so the confidence-1.0 posterior is NOT strictly closer to the view than the
confidence-0.1 posterior. -/
theorem blackLitterman_confidence_not_strict_at_equilibrium_view :
    ∃ p1 w1 p2 w2,
      black_litterman equal_weight_solver (fun _ _ => 1) [("A", 1)]
        [("A", 63/25)] (some [("A", 1)]) (1/20) (5/2) (1/50) = some (p1, w1)
      ∧ black_litterman equal_weight_solver (fun _ _ => 1) [("A", 1)]
        [("A", 63/25)] (some [("A", 1/10)]) (1/20) (5/2) (1/50)
        = some (p2, w2)
      ∧ ¬ (|p1.getD 0 0 - 63/25| < |p2.getD 0 0 - 63/25|) := by
  have hdet : (((1:ℚ)/20) • cov_mat (fun _ _ => 1) [("A", (1:ℚ))]).det ≠ 0 := by
    rw [det_smul_cov_singleton]
    norm_num
  have hSkk : 0 < (((1:ℚ)/20) • cov_mat (fun _ _ => 1) [("A", (1:ℚ))])
      ⟨0, by simp⟩ ⟨0, by simp⟩ := by
    rw [smul_cov_singleton]
    norm_num
  refine ⟨_, _, _, _,
    blackLitterman_single_view equal_weight_solver (fun _ _ => 1) [("A", 1)]
      "A" (63/25) 1 (1/20) (5/2) (1/50) ⟨0, by simp⟩ (by simp [bl_assets])
      rfl hdet hSkk,
    blackLitterman_single_view equal_weight_solver (fun _ _ => 1) [("A", 1)]
      "A" (63/25) (1/10) (1/20) (5/2) (1/50) ⟨0, by simp⟩ (by simp [bl_assets])
      rfl hdet hSkk, ?_⟩
  rw [single_view_posterior_getD, single_view_posterior_getD]
  simp only [smul_cov_singleton, eq_ret_singleton]
  norm_num
